import Mathlib

/-!
Verification of the `go-equivalence` library (package `equivalence`).

This file gives a shallow embedding of the library's current implementation
(the revision with per-side duplicate tracking, `big.Int` / `big.Float`
support and the `mapRange` helper) and proves or refutes the frozen claims
about it.

Modelling conventions, stated once here:

* Go's `reflect.Value` is modelled by the inductive type `Val`.  Reference
  cells (pointer targets, slice backing stores, map tables) live in an
  explicit `Heap`; a pointer / slice / map value carries the index of its
  cell, which also plays the role of the identity handed to the duplicate
  finder (`reflect.Value.Pointer` in the source).
* Floating-point values are modelled as exact rationals together with a NaN
  flag (`GoFloat`).  Conversions between integers and floats are modelled
  exactly; the rounding a real `float64` performs above 2^53 is not
  modelled, and none of the claims depends on values in that regime.
  Infinities are not modelled.
* The host collaborators (`reflect` introspection, `strconv` / `big`
  rendering, the go-duplicates identity set) are modelled from their
  documented interfaces: map iteration is a walk over the entry list, map
  lookup compares keys with Go `==` (dynamic type and value, NaN never
  equal to NaN), the identity set is a list of registered ids.
  `strconv.FormatFloat(v, 'g', -1, 64)` is modelled as the exact decimal
  rendering of the rational value, switching to exponent form when the
  decimal exponent is below -4 or at least 21, with `big.Float.Text 'g'`
  analogous (threshold derived from the stored bit precision as in the
  source's `bitsToDecimalDigits`; the significant-digit rounding that
  `Text` performs is not modelled, which is exact for the values the
  claims exercise).
* The platform `int` / `uint` are 64-bit, as on the library's reference
  targets.
-/

namespace GoEquivalence

/-- Signed integer kinds of the Go reflection universe (`reflect.Int*`).
`iK` is the platform-sized `int`, modelled as 64-bit. -/
inductive IntKind where
  | iK | i8 | i16 | i32 | i64
  deriving DecidableEq, Repr

/-- Unsigned integer kinds (`reflect.Uint*`); `uK` is the platform `uint`. -/
inductive UintKind where
  | uK | u8 | u16 | u32 | u64
  deriving DecidableEq, Repr

/-- Floating kinds (`reflect.Float32` / `reflect.Float64`). -/
inductive FloatKind where
  | f32 | f64
  deriving DecidableEq, Repr

/-- Complex kinds (`reflect.Complex64` / `reflect.Complex128`). -/
inductive ComplexKind where
  | c64 | c128
  deriving DecidableEq, Repr

/-- A Go floating-point datum: a NaN flag plus an exact rational value
(meaningful only when `nan = false`; by convention `val = 0` for NaN). -/
structure GoFloat where
  nan : Bool
  val : ℚ
  deriving DecidableEq, Repr

/-- Go `==` on floats: NaN is never equal to anything. -/
def goFloatEq (a b : GoFloat) : Bool :=
  !a.nan && !b.nan && a.val == b.val

/-- Truncation of a rational toward zero, the semantics of Go's
float-to-integer conversion for in-range arguments (`int64(f)`). -/
def ratTrunc (q : ℚ) : Int :=
  Int.tdiv q.num (Int.ofNat q.den)

/-- Go `int64(f)` for a modelled float; the argument is only meaningful for
non-NaN values (the callers guard with an exactness conjunct). -/
def goTruncF (f : GoFloat) : Int :=
  if f.nan then 0 else ratTrunc f.val

/-- Go `uint64(f)` for a modelled float, same caveat as `goTruncF`. -/
def goTruncU (f : GoFloat) : Int :=
  goTruncF f

/-- Range predicate for a signed kind (platform `int` is 64-bit). -/
def IntKind.inRange : IntKind → Int → Bool
  | .i8, v => -(2 ^ 7) ≤ v && v < 2 ^ 7
  | .i16, v => -(2 ^ 15) ≤ v && v < 2 ^ 15
  | .i32, v => -(2 ^ 31) ≤ v && v < 2 ^ 31
  | .i64, v => -(2 ^ 63) ≤ v && v < 2 ^ 63
  | .iK, v => -(2 ^ 63) ≤ v && v < 2 ^ 63

/-- Range predicate for an unsigned kind. -/
def UintKind.inRange : UintKind → Nat → Bool
  | .u8, v => v < 2 ^ 8
  | .u16, v => v < 2 ^ 16
  | .u32, v => v < 2 ^ 32
  | .u64, v => v < 2 ^ 64
  | .uK, v => v < 2 ^ 64

/-- Fuel-driven worker for `factorOut` (structural recursion so that the
kernel can evaluate it; `fuel = n` always suffices since each step divides
by at least 2). -/
def factorOutAux (p : Nat) : Nat → Nat → Nat × Nat
  | 0, n => (0, n)
  | fuel + 1, n =>
    if 2 ≤ p && n % p == 0 && n != 0 then
      let r := factorOutAux p fuel (n / p)
      (r.1 + 1, r.2)
    else
      (0, n)

/-- Factor all powers of `p` out of `n`: returns the multiplicity and the
remaining cofactor (`n = p ^ fst * snd` with `p ∤ snd` when `p ≥ 2, n > 0`). -/
def factorOut (p n : Nat) : Nat × Nat :=
  factorOutAux p n n

/-- Exact representability as an IEEE-754 binary32 value: `q = m * 2^e` with
`|m| ≤ 2^24 - 1` and `-149 ≤ e ≤ 104`. -/
def isF32 (q : ℚ) : Bool :=
  if q = 0 then true
  else
    let dpow := factorOut 2 q.den
    if dpow.2 != 1 then false
    else
      let npow := factorOut 2 q.num.natAbs
      let e0 : Int := (npow.1 : Int) - (dpow.1 : Int)
      decide (-149 ≤ e0) && decide (npow.2 * 2 ^ (e0 - 104).toNat ≤ 2 ^ 24 - 1)

/-- Exact representability as an IEEE-754 binary64 value: `q = m * 2^e` with
`|m| ≤ 2^53 - 1` and `-1074 ≤ e ≤ 971`. -/
def isF64 (q : ℚ) : Bool :=
  if q = 0 then true
  else
    let dpow := factorOut 2 q.den
    if dpow.2 != 1 then false
    else
      let npow := factorOut 2 q.num.natAbs
      let e0 : Int := (npow.1 : Int) - (dpow.1 : Int)
      decide (-1074 ≤ e0) && decide (npow.2 * 2 ^ (e0 - 971).toNat ≤ 2 ^ 53 - 1)

/-! ### Decimal rendering (model of `strconv` / `math/big` text output)

`strconv.FormatInt` / `FormatUint` / `big.Int.String` all produce the plain
decimal representation.  `strconv.FormatFloat(v, 'g', -1, 64)` produces the
shortest round-tripping decimal, in exponent form when the decimal exponent
is `< -4` or `≥ 21`; since the modelled float values are exact rationals the
shortest round-tripping decimal is the exact one. -/

/-- Fuel-driven worker for `natDecChars` (structural recursion so that the
kernel can evaluate it; `fuel = n + 1` always suffices). -/
def natDecCharsAux : Nat → Nat → List Char
  | 0, _ => []
  | fuel + 1, n =>
    if n < 10 then [Nat.digitChar n]
    else natDecCharsAux fuel (n / 10) ++ [Nat.digitChar (n % 10)]

/-- Decimal digits of a natural number, most significant first ('0'-'9'). -/
def natDecChars (n : Nat) : List Char :=
  natDecCharsAux (n + 1) n

/-- `strconv.FormatUint(v, 10)`. -/
def natToDecString (n : Nat) : String :=
  String.mk (natDecChars n)

/-- `strconv.FormatInt(v, 10)`, also `big.Int.String` (both render plain
base-10 with a leading minus sign for negatives). -/
def intToDecString (v : Int) : String :=
  if v < 0 then String.mk ('-' :: natDecChars v.natAbs)
  else String.mk (natDecChars v.natAbs)

/-- Exact decimal mantissa/exponent of `n / d`: the digit list (no trailing
zeros) and the decimal point position `dp` with `n / d = 0.digits * 10^dp`;
`none` when the expansion does not terminate (impossible for values coming
from binary floats). -/
def tensExp (d : Nat) : Nat :=
  max (factorOut 2 d).1 (factorOut 5 (factorOut 2 d).2).1

def decParts (n d : Nat) : Option (List Char × Int) :=
  if (factorOut 5 (factorOut 2 d).2).2 != 1 then none
  else
    some (natDecChars (factorOut 10 (n * (10 ^ tensExp d / d))).2,
      (natDecChars (n * (10 ^ tensExp d / d))).length - (tensExp d : Int))

/-- Exponent suffix of Go's `%e` style: `e` + sign + at-least-two digits. -/
def expChars (exp : Int) : List Char :=
  let a := natDecChars exp.natAbs
  'e' :: (if exp < 0 then '-' else '+') :: (if a.length < 2 then '0' :: a else a)

/-- `%e`-style body from digit list and exponent (`d.ddd e±XX`). -/
def fmtEChars (digits : List Char) (exp : Int) : List Char :=
  match digits with
  | [] => []
  | c :: rest =>
    c :: (if rest.isEmpty then [] else '.' :: rest) ++ expChars exp

/-- `%f`-style body from digit list and decimal-point position. -/
def fmtFChars (digits : List Char) (dp : Int) : List Char :=
  if dp ≤ 0 then
    '0' :: '.' :: List.replicate (-dp).toNat '0' ++ digits
  else if (digits.length : Int) ≤ dp then
    digits ++ List.replicate (dp - digits.length).toNat '0'
  else
    digits.take dp.toNat ++ '.' :: digits.drop dp.toNat

/-- Go `%g` rendering of a nonzero rational with exponent threshold `eprec`:
exponent style iff `exp < -4 ∨ exp ≥ eprec`. -/
def ratGChars (q : ℚ) (eprec : Int) : List Char :=
  if q = 0 then ['0']
  else
    match decParts q.num.natAbs q.den with
    | none => ['?']
    | some (digits, dp) =>
      let body := if dp - 1 < -4 || eprec ≤ dp - 1 then fmtEChars digits (dp - 1)
                  else fmtFChars digits dp
      if q < 0 then '-' :: body else body

/-- `strconv.FormatFloat(v, 'g', -1, 64)` (source helper `floatToString`),
with shortest-form exponent threshold 21. -/
def floatChars (f : GoFloat) : List Char :=
  if f.nan then ['N', 'a', 'N'] else ratGChars f.val 21

/-- Source `floatToString`. -/
def floatToString (f : GoFloat) : String :=
  String.mk (floatChars f)

/-- Source `bitsToDecimalDigitsTable`. -/
def bitsToDecimalDigitsTable : List Nat := [0, 1, 1, 1, 1, 2, 2, 2, 3, 3]

/-- Source `bitsToDecimalDigits`. -/
def bitsToDecimalDigits (bitCount : Nat) : Nat :=
  (bitCount / 10) * 3 + bitsToDecimalDigitsTable.getD (bitCount % 10) 0

/-- `big.Float.Text('g', bitsToDecimalDigits prec)` (source
`bigFloatToString`): `%g` with the exponent threshold given by the digit
count derived from the stored precision.  The significant-digit rounding of
`Text` is not modelled (the modelled value is rendered exactly). -/
def bigFloatChars (prec : Nat) (q : ℚ) : List Char :=
  ratGChars q (bitsToDecimalDigits prec)

/-- Source `bigFloatToString` as a `String`. -/
def bigFloatToString (prec : Nat) (q : ℚ) : String :=
  String.mk (bigFloatChars prec q)

/-! ### The value model -/

/-- Model of a `reflect.Value`.  Reference-like values (`ptrV`, `sliceV`,
`mapV`) carry the index of their cell in the `Heap`; that index is also the
identity reported by `reflect.Value.Pointer` to the duplicate finder.
`strV`, `chanV`, `funcV` and `structV` carry numeric codes standing for
their `reflect.Type`.  `bigIntV` / `bigFloatV` are the two struct types
(`big.Int`, `big.Float`) that the source special-cases; their payload is the
mathematical value (plus stored bit precision for `big.Float`).  `uaddrV`
(an `unsafe.Pointer` value) carries the addressability flag of the
`reflect.Value` (set when it was reached through `Elem`) and its storage
address, the quantity `reflect.Value.UnsafeAddr` reports. -/
inductive Val where
  | invalid
  | boolV (b : Bool)
  | intV (k : IntKind) (v : Int)
  | uintV (k : UintKind) (v : Nat)
  | floatV (k : FloatKind) (f : GoFloat)
  | complexV (k : ComplexKind) (re im : GoFloat)
  | strV (ty : Nat) (s : String)
  | arrayV (elems : List Val)
  | sliceV (id : Nat)
  | mapV (id : Nat)
  | structV (ty : Nat) (fields : List Val)
  | bigIntV (v : Int)
  | bigFloatV (prec : Nat) (v : ℚ)
  | ptrV (id : Nat)
  | ifaceV (inner : Val)
  | uintptrV (addr : Nat)
  | uaddrV (addressable : Bool) (addr : Nat)
  | chanV (ty elemTy dir : Nat)
  | funcV (ty : Nat)

/-- A heap cell: the target of a pointer (`none` = nil pointer), the backing
store of a slice, or the entry table of a map. -/
inductive Cell where
  | ptrCell (target : Option Val)
  | sliceCell (elems : List Val)
  | mapCell (entries : List (Val × Val))

/-- The reference graph backing the two compared values. -/
structure Heap where
  cells : List Cell

/-- Cell lookup. -/
def Heap.cellAt (H : Heap) (id : Nat) : Option Cell :=
  H.cells[id]?

/-- `Elem` of a non-nil pointer; a nil target (and, in the model, a missing
or mismatched cell, which cannot arise from real Go data) yields the zero
`reflect.Value`. -/
def ptrElem (H : Heap) (id : Nat) : Val :=
  match H.cellAt id with
  | some (.ptrCell (some v)) => v
  | _ => .invalid

/-- Backing elements of a slice. -/
def sliceElems (H : Heap) (id : Nat) : List Val :=
  match H.cellAt id with
  | some (.sliceCell es) => es
  | _ => []

/-- Entry table of a map. -/
def mapEntries (H : Heap) (id : Nat) : List (Val × Val) :=
  match H.cellAt id with
  | some (.mapCell kvs) => kvs
  | _ => []

/-- Model of the go-duplicates identity set (spec §6: `register(identity) ->
wasAlreadyPresent`). -/
structure Finder where
  ids : List Nat

/-- `DuplicateFinder.RegisterPointer`: report whether the identity was
already present and record it. -/
def Finder.registerPointer (f : Finder) (id : Nat) : Bool × Finder :=
  if f.ids.contains id then (true, f) else (false, ⟨id :: f.ids⟩)

/-- Source `comparator`: one finder per side (`aFinder`, `bFinder`). -/
structure CompState where
  aF : Finder
  bF : Finder

/-- The comparator of a fresh `IsEquivalent` call. -/
def initState : CompState := ⟨⟨[]⟩, ⟨[]⟩⟩

/-- Abnormal outcomes of the engine: a Go panic (caught at the entry point)
or exhaustion of the model's fuel (a model artifact; the real recursion
terminates thanks to the duplicate guard). -/
inductive Fault where
  | panicked
  | outOfFuel
  deriving DecidableEq, Repr

/-! ### Go `==` (used by map lookup)

Dynamic equality of interface contents: equal dynamic types and equal
values; floats compare IEEE-style (NaN is unequal to everything).  Values of
uncomparable kinds (slices, maps, functions, and the big number structs,
whose internals contain slices) are modelled as never equal; in real Go they
cannot occur as map keys at all. -/

mutual

/-- Go `==` on dynamic values. -/
def goEq : Val → Val → Bool
  | .invalid, .invalid => true
  | .boolV a, .boolV b => a == b
  | .intV k a, .intV k2 b => k == k2 && a == b
  | .uintV k a, .uintV k2 b => k == k2 && a == b
  | .floatV k a, .floatV k2 b => k == k2 && goFloatEq a b
  | .complexV k r i, .complexV k2 r2 i2 => k == k2 && goFloatEq r r2 && goFloatEq i i2
  | .strV t a, .strV t2 b => t == t2 && a == b
  | .arrayV es, .arrayV es2 => goEqList es es2
  | .structV t fs, .structV t2 fs2 => t == t2 && goEqList fs fs2
  | .ptrV a, .ptrV b => a == b
  | .ifaceV a, .ifaceV b => goEq a b
  | .uintptrV a, .uintptrV b => a == b
  | .uaddrV _ a, .uaddrV _ b => a == b
  | .chanV t e d, .chanV t2 e2 d2 => t == t2 && e == e2 && d == d2
  | _, _ => false

/-- Go `==` on same-type arrays / struct field lists, element-wise. -/
def goEqList : List Val → List Val → Bool
  | [], [] => true
  | a :: as_, b :: bs => goEq a b && goEqList as_ bs
  | _, _ => false

end

/-! ### Cross-kind numeric comparison helpers (source lines 265-377) -/

/-- Go `int64(u)` for a `uint64` value: two's-complement reinterpretation. -/
def uint64ToInt64 (u : Nat) : Int :=
  if u < 2 ^ 63 then (u : Int) else (u : Int) - 2 ^ 64

/-- Model of `fmt.Sprintf("%v", v)`; only the fact that the `NOT NUMERIC`
rendering is prefixed in `numericToString` matters, so the payload is
abstracted. -/
def goDescr (_v : Val) : String := ""

/-- Source `numericToString`.  `strconv.FormatInt`, `strconv.FormatUint` and
`big.Int.String` all render plain decimal, modelled by the shared
`intToDecString` / `natToDecString`. -/
def numericToString (v : Val) : String :=
  match v with
  | .intV _ n => intToDecString n
  | .uintV _ n => natToDecString n
  | .floatV _ f => floatToString f
  | .bigIntV n => intToDecString n
  | .bigFloatV p q => bigFloatToString p q
  | w => "NOT NUMERIC: " ++ goDescr w

/-- Source `isEquivalentToBigFloat`. -/
def isEquivalentToBigFloat (prec : Nat) (a : ℚ) (b : Val) : Bool :=
  bigFloatToString prec a == numericToString b

/-- Source `isEquivalentToBigInt`. -/
def isEquivalentToBigInt (a : Int) (b : Val) : Bool :=
  intToDecString a == numericToString b

/-- Source `isEquivalentToInt`, including the literal mask
`0x1000000000000000` tested on the unsigned operand. -/
def isEquivalentToInt (a : Int) (b : Val) : Bool :=
  match b with
  | .intV _ bv => bv == a
  | .uintV _ ub =>
    if ub &&& 0x1000000000000000 != 0 then false
    else a == uint64ToInt64 ub
  | .floatV _ fb => a == goTruncF fb && goFloatEq ⟨false, (a : ℚ)⟩ fb
  | .bigIntV bv => intToDecString a == intToDecString bv
  | .bigFloatV p bv => intToDecString a == bigFloatToString p bv
  | _ => false

/-- Source `isEquivalentToUint`. -/
def isEquivalentToUint (a : Nat) (b : Val) : Bool :=
  match b with
  | .intV _ ib =>
    if ib < 0 then false
    else (a : Int) == ib
  | .uintV _ ub => a == ub
  | .floatV _ fb =>
    if !fb.nan && fb.val < 0 then false
    else (a : Int) == goTruncF fb && goFloatEq ⟨false, (a : ℚ)⟩ fb
  | .bigIntV bv => natToDecString a == intToDecString bv
  | .bigFloatV p bv => natToDecString a == bigFloatToString p bv
  | _ => false

/-- Source `isEquivalentToFloat`.  Two floats are equivalent iff both NaN or
exactly equal: the float/float branch applies no tolerance. -/
def isEquivalentToFloat (a : GoFloat) (b : Val) : Bool :=
  match b with
  | .intV _ ib => goFloatEq a ⟨false, (ib : ℚ)⟩ && goTruncF a == ib
  | .uintV _ ub => goFloatEq a ⟨false, (ub : ℚ)⟩ && goTruncF a == (ub : Int)
  | .floatV _ fb =>
    if a.nan && fb.nan then true
    else goFloatEq a fb
  | .bigIntV bv => floatToString a == intToDecString bv
  | .bigFloatV p bv => floatToString a == bigFloatToString p bv
  | _ => false

/-! ### Keyed-lookup resolver (source lines 69-196)

Maps are modelled as interface-keyed entry tables (the configuration the
library's own tests exercise): `MapIndex` wraps the probe key and compares
it against the stored keys with Go dynamic equality `goEq`. -/

/-- `reflect.Value.MapIndex` on the entry table: value of the first entry
whose key is Go-equal to the probe, `none` (the zero `reflect.Value`) when
absent. -/
def mapIndex (m : List (Val × Val)) (k : Val) : Option Val :=
  (m.find? fun kv => goEq kv.1 k).map fun kv => kv.2

/-- Source `getIntKeyedMapValue`: probe `int64`, `int`, `int32`, `int16`,
`int8`, each guarded by the lossless round-trip check (the platform `int`
probe always round-trips on a 64-bit platform). -/
def getIntKeyedMapValue (m : List (Val × Val)) (aKey : Int) : Option Val :=
  mapIndex m (.intV .i64 aKey) <|>
  mapIndex m (.intV .iK aKey) <|>
  (if IntKind.inRange .i32 aKey then mapIndex m (.intV .i32 aKey) else none) <|>
  (if IntKind.inRange .i16 aKey then mapIndex m (.intV .i16 aKey) else none) <|>
  (if IntKind.inRange .i8 aKey then mapIndex m (.intV .i8 aKey) else none)

/-- Source `getUintKeyedMapValue`: probe `uint64`, `uint`, `uint32`,
`uint16`, `uint8` under the same round-trip discipline. -/
def getUintKeyedMapValue (m : List (Val × Val)) (aKey : Nat) : Option Val :=
  mapIndex m (.uintV .u64 aKey) <|>
  mapIndex m (.uintV .uK aKey) <|>
  (if UintKind.inRange .u32 aKey then mapIndex m (.uintV .u32 aKey) else none) <|>
  (if UintKind.inRange .u16 aKey then mapIndex m (.uintV .u16 aKey) else none) <|>
  (if UintKind.inRange .u8 aKey then mapIndex m (.uintV .u8 aKey) else none)

/-- Source `getFloatKeyedMapValue`: probe `float64`, then `float32` when the
narrowing round-trips (never for NaN, whose narrowed round-trip compares
unequal to itself). -/
def getFloatKeyedMapValue (m : List (Val × Val)) (aKey : GoFloat) : Option Val :=
  mapIndex m (.floatV .f64 aKey) <|>
  (if !aKey.nan && isF32 aKey.val then mapIndex m (.floatV .f32 aKey) else none)

/-- Source `getMapValue`: exact lookup first, then the numeric re-encoding
cascade.  Note the floating-key branch probes only the integral
re-encodings and falls back to the (failed) exact lookup — it never probes
the narrowed float width. -/
def getMapValue (m : List (Val × Val)) (key : Val) : Option Val :=
  let aKey := match key with
    | .ifaceV inner => inner
    | k => k
  match mapIndex m aKey with
  | some v => some v
  | none =>
    match aKey with
    | .intV _ asInt =>
      getIntKeyedMapValue m asInt <|>
      (if 0 ≤ asInt then getUintKeyedMapValue m asInt.toNat else none) <|>
      getFloatKeyedMapValue m ⟨false, (asInt : ℚ)⟩
    | .uintV _ asUint =>
      getUintKeyedMapValue m asUint <|>
      (if (asUint : Int) ≤ 2 ^ 63 - 1 then getIntKeyedMapValue m (asUint : Int) else none) <|>
      getFloatKeyedMapValue m ⟨false, (asUint : ℚ)⟩
    | .floatV _ asFloat =>
      (if !asFloat.nan && ((ratTrunc asFloat.val : ℚ) == asFloat.val) then
        getIntKeyedMapValue m (ratTrunc asFloat.val)
      else none) <|>
      (if !asFloat.nan && 0 ≤ asFloat.val && ((ratTrunc asFloat.val : ℚ) == asFloat.val) then
        getUintKeyedMapValue m (ratTrunc asFloat.val).toNat
      else none)
    | _ => none

/-! ### Introspection accessors used by the container rules

These model the `reflect.Value` methods the source calls on the *other*
operand while assuming kind compatibility; an incompatible kind is the
panic that `IsEquivalent` catches at the entry point. -/

/-- `Len`: sequences, maps and strings (byte length); the buffered count of
a channel is modelled as 0. -/
def lenE (H : Heap) : Val → Except Fault Nat
  | .arrayV es => .ok es.length
  | .sliceV id => .ok (sliceElems H id).length
  | .mapV id => .ok (mapEntries H id).length
  | .strV _ s => .ok s.utf8ByteSize
  | .chanV _ _ _ => .ok 0
  | _ => .error .panicked

/-- `Index`: array/slice element, string byte; out of range or an unindexed
kind panics. -/
def indexE (H : Heap) : Val → Nat → Except Fault Val
  | .arrayV es, i =>
    match es[i]? with
    | some v => .ok v
    | none => .error .panicked
  | .sliceV id, i =>
    match (sliceElems H id)[i]? with
    | some v => .ok v
    | none => .error .panicked
  | .strV _ s, i =>
    match s.toUTF8.data[i]? with
    | some byte => .ok (.uintV .u8 byte.toNat)
    | none => .error .panicked
  | _, _ => .error .panicked

/-- `NumField` / `Field` as one accessor returning the field list.  The
unexported internals of `big.Int` (2 fields) and `big.Float` (7 fields) are
abstracted as absent values. -/
def fieldsE : Val → Except Fault (List Val)
  | .structV _ fs => .ok fs
  | .bigIntV _ => .ok (List.replicate 2 .invalid)
  | .bigFloatV _ _ => .ok (List.replicate 7 .invalid)
  | _ => .error .panicked

/-- `MapRange` / `MapIndex` access to the entry table; panics off maps. -/
def entriesE (H : Heap) : Val → Except Fault (List (Val × Val))
  | .mapV id => .ok (mapEntries H id)
  | _ => .error .panicked

/-! ### The structural recursion engine (source lines 198-443)

All recursion is paid for with explicit fuel; `Fault.outOfFuel` marks an
exhausted budget and is a model artifact — the theorems always supply
enough fuel.  A call at fuel `n + 1` hands `n` to its callees. -/

/-- Source `drillDown`: strip pointers and interfaces, registering each
pointer identity with the side's finder first; a repeated identity stops
the walk and reports a duplicate. -/
def drillDown (H : Heap) (fuel : Nat) (f : Finder) (v : Val) :
    Except Fault (Val × Bool × Finder) :=
  match fuel with
  | 0 => .error .outOfFuel
  | fuel' + 1 =>
    match v with
    | .ptrV id =>
      let r := f.registerPointer id
      if r.1 then .ok (v, true, r.2)
      else drillDown H fuel' r.2 (ptrElem H id)
    | .ifaceV inner => drillDown H fuel' f inner
    | w => .ok (w, false, f)

mutual

/-- Source `comparator.areObjectsEquivalent`: drill both sides, short-cut on
a duplicate or an absent value, then dispatch on the left operand's kind.
The `Uintptr` case panics on every execution (`reflect.Value.Pointer` is
illegal on that kind); the `UnsafePointer` case calls `UnsafeAddr` on both
sides, which panics on a non-addressable operand and otherwise compares
storage addresses — in the non-aliasing heap model two distinct operands of
different kinds never share storage, so the cross-kind row is folded into
the panic (at the entry point both surface as `false`). -/
def areObjectsEquivalent (H : Heap) (fuel : Nat) (a b : Val) (s : CompState) :
    Except Fault (Bool × CompState) :=
  match fuel with
  | 0 => .error .outOfFuel
  | fuel' + 1 =>
    match drillDown H fuel' s.aF a with
    | .error e => .error e
    | .ok (a1, aDup, aF1) =>
      match drillDown H fuel' s.bF b with
      | .error e => .error e
      | .ok (b1, bDup, bF1) =>
        let s1 : CompState := ⟨aF1, bF1⟩
        if aDup || bDup then .ok (true, s1)
        else
          match a1, b1 with
          | .invalid, .invalid => .ok (true, s1)
          | .invalid, _ => .ok (false, s1)
          | _, .invalid => .ok (false, s1)
          | .boolV av, .boolV bv => .ok (av == bv, s1)
          | .boolV _, _ => .error .panicked
          | .intV _ av, bv => .ok (isEquivalentToInt av bv, s1)
          | .uintV _ av, bv => .ok (isEquivalentToUint av bv, s1)
          | .floatV _ av, bv => .ok (isEquivalentToFloat av bv, s1)
          | .complexV _ ar ai, .complexV _ br bi =>
            .ok (goFloatEq ar br && goFloatEq ai bi, s1)
          | .complexV _ _ _, _ => .error .panicked
          | .strV ty sv, .strV ty2 sv2 => .ok (ty == ty2 && sv == sv2, s1)
          | .strV _ _, _ => .ok (false, s1)
          | .arrayV es, bv => areArraysOrSlicesEquivalent H fuel' (.arrayV es) bv s1
          | .sliceV id, bv =>
            let r := aF1.registerPointer id
            if r.1 then .ok (true, ⟨r.2, bF1⟩)
            else areArraysOrSlicesEquivalent H fuel' (.sliceV id) bv ⟨r.2, bF1⟩
          | .mapV id, bv =>
            let r := aF1.registerPointer id
            if r.1 then .ok (true, ⟨r.2, bF1⟩)
            else areMapsEquivalent H fuel' (.mapV id) bv ⟨r.2, bF1⟩
          | .structV ty fs, bv => areStructsEquivalent H fuel' (.structV ty fs) bv s1
          | .bigIntV n, bv => areStructsEquivalent H fuel' (.bigIntV n) bv s1
          | .bigFloatV p q, bv => areStructsEquivalent H fuel' (.bigFloatV p q) bv s1
          | .uintptrV _, _ => .error .panicked
          | .uaddrV aAdd av, .uaddrV bAdd bv =>
            if aAdd && bAdd then .ok (av == bv, s1) else .error .panicked
          | .uaddrV _ _, _ => .error .panicked
          | .chanV t e d, .chanV t2 e2 d2 => .ok (t == t2 && e == e2 && d == d2, s1)
          | .chanV _ _ _, _ => .ok (false, s1)
          | .funcV t, .funcV t2 => .ok (t == t2, s1)
          | .funcV _, _ => .ok (false, s1)
          | .ptrV _, _ => .ok (false, s1)
          | .ifaceV _, _ => .ok (false, s1)

/-- Source `areArraysOrSlicesEquivalent`: length check then element-wise
comparison. -/
def areArraysOrSlicesEquivalent (H : Heap) (fuel : Nat) (a b : Val)
    (s : CompState) : Except Fault (Bool × CompState) :=
  match fuel with
  | 0 => .error .outOfFuel
  | fuel' + 1 =>
    match lenE H a with
    | .error e => .error e
    | .ok la =>
      match lenE H b with
      | .error e => .error e
      | .ok lb =>
        if la != lb then .ok (false, s)
        else arrLoop H fuel' 0 la a b s

/-- The index loop of `areArraysOrSlicesEquivalent` (`i` next index, `rem`
the remaining count). -/
def arrLoop (H : Heap) (fuel : Nat) (i rem : Nat) (a b : Val) (s : CompState) :
    Except Fault (Bool × CompState) :=
  match fuel with
  | 0 => .error .outOfFuel
  | fuel' + 1 =>
    match rem with
    | 0 => .ok (true, s)
    | rem' + 1 =>
      match indexE H a i with
      | .error e => .error e
      | .ok av =>
        match indexE H b i with
        | .error e => .error e
        | .ok bv =>
          match areObjectsEquivalent H fuel' av bv s with
          | .error e => .error e
          | .ok (false, s2) => .ok (false, s2)
          | .ok (true, s2) => arrLoop H fuel' (i + 1) rem' a b s2

/-- Source `areMapsEquivalent`: size check, then for each entry of `a` look
up the numerically-equivalent entry of `b` and recurse on the values. -/
def areMapsEquivalent (H : Heap) (fuel : Nat) (a b : Val) (s : CompState) :
    Except Fault (Bool × CompState) :=
  match fuel with
  | 0 => .error .outOfFuel
  | fuel' + 1 =>
    match lenE H a with
    | .error e => .error e
    | .ok la =>
      match lenE H b with
      | .error e => .error e
      | .ok lb =>
        if la != lb then .ok (false, s)
        else
          match a with
          | .mapV id => mapLoop H fuel' (mapEntries H id) b s
          | _ => .error .panicked

/-- The iteration loop of `areMapsEquivalent`; a missing key yields the zero
`reflect.Value` for the recursive comparison, exactly as in the source. -/
def mapLoop (H : Heap) (fuel : Nat) (entries : List (Val × Val)) (b : Val)
    (s : CompState) : Except Fault (Bool × CompState) :=
  match fuel with
  | 0 => .error .outOfFuel
  | fuel' + 1 =>
    match entries with
    | [] => .ok (true, s)
    | (k, av) :: rest =>
      match entriesE H b with
      | .error e => .error e
      | .ok bEntries =>
        let bv := match getMapValue bEntries k with
          | some v => v
          | none => .invalid
        match areObjectsEquivalent H fuel' av bv s with
        | .error e => .error e
        | .ok (false, s2) => .ok (false, s2)
        | .ok (true, s2) => mapLoop H fuel' rest b s2

/-- Source `areStructsEquivalent`: the two arbitrary-precision struct types
route to the decimal-string comparison, other structs compare fields
pairwise by position. -/
def areStructsEquivalent (H : Heap) (fuel : Nat) (a b : Val) (s : CompState) :
    Except Fault (Bool × CompState) :=
  match fuel with
  | 0 => .error .outOfFuel
  | fuel' + 1 =>
    match a with
    | .bigIntV av => .ok (isEquivalentToBigInt av b, s)
    | .bigFloatV p av => .ok (isEquivalentToBigFloat p av b, s)
    | .structV _ fs =>
      match fieldsE b with
      | .error e => .error e
      | .ok bfs =>
        if fs.length != bfs.length then .ok (false, s)
        else structLoop H fuel' (fs.zip bfs) s
    | _ => .error .panicked

/-- The field loop of `areStructsEquivalent`. -/
def structLoop (H : Heap) (fuel : Nat) (pairs : List (Val × Val))
    (s : CompState) : Except Fault (Bool × CompState) :=
  match fuel with
  | 0 => .error .outOfFuel
  | fuel' + 1 =>
    match pairs with
    | [] => .ok (true, s)
    | (x, y) :: rest =>
      match areObjectsEquivalent H fuel' x y s with
      | .error e => .error e
      | .ok (false, s2) => .ok (false, s2)
      | .ok (true, s2) => structLoop H fuel' rest s2

end

/-- Source `IsEquivalent`: the public entry point.  Both-nil is special
cased; a fresh comparator is built per call; any panic beneath the call is
recovered into `false`.  The `Option` layer reports only fuel exhaustion
(`none`), which has no counterpart in the real program. -/
def IsEquivalent (H : Heap) (fuel : Nat) (a b : Val) : Option Bool :=
  match a, b with
  | .invalid, .invalid => some true
  | a, b =>
    match areObjectsEquivalent H fuel a b initState with
    | .ok (r, _) => some r
    | .error .panicked => some false
    | .error .outOfFuel => none


/-! ### Supporting lemmas: decimal renderings never collide with the
`NOT NUMERIC` marker -/

lemma natDecCharsAux_mem (fuel : Nat) :
    ∀ (n : Nat), ∀ c ∈ natDecCharsAux fuel n, ∃ k, k < 10 ∧ c = Nat.digitChar k := by
  induction fuel with
  | zero => intro n c hc; simp [natDecCharsAux] at hc
  | succ fuel ih =>
    intro n c hc
    by_cases h : n < 10
    · simp [natDecCharsAux, h] at hc
      exact ⟨n, h, hc⟩
    · simp [natDecCharsAux, h] at hc
      rcases hc with hc | hc
      · exact ih _ c hc
      · exact ⟨n % 10, Nat.mod_lt _ (by omega), hc⟩

lemma natDecChars_mem (n : Nat) :
    ∀ c ∈ natDecChars n, ∃ k, k < 10 ∧ c = Nat.digitChar k :=
  natDecCharsAux_mem _ _

lemma natDecChars_ne_nil (n : Nat) : natDecChars n ≠ [] := by
  unfold natDecChars natDecCharsAux
  by_cases h : n < 10 <;> simp [h]

lemma digitChar_ne_N {k : Nat} (h : k < 10) : Nat.digitChar k ≠ 'N' := by
  interval_cases k <;> decide

/-- A string whose first character is not `N` differs from every
`NOT NUMERIC: `-prefixed string. -/
lemma mk_ne_notNumeric (l : List Char) (hne : l.head? ≠ some 'N') (s : String) :
    String.mk l ≠ "NOT NUMERIC: " ++ s := by
  intro h
  apply hne
  have h2 : l = ("NOT NUMERIC: " ++ s).data := congrArg String.data h
  rw [h2]
  rfl

lemma natDecChars_head_ne_N (n : Nat) : (natDecChars n).head? ≠ some 'N' := by
  cases hl : natDecChars n with
  | nil => simp
  | cons c cs =>
    have hc : c ∈ natDecChars n := by rw [hl]; exact List.mem_cons_self _ _
    rcases natDecChars_mem _ c hc with ⟨k, hk, rfl⟩
    simpa using digitChar_ne_N hk

lemma intToDecString_ne_notNumeric (a : Int) (s : String) :
    intToDecString a ≠ "NOT NUMERIC: " ++ s := by
  unfold intToDecString
  split
  · exact mk_ne_notNumeric _ (by simp) s
  · exact mk_ne_notNumeric _ (natDecChars_head_ne_N _) s

lemma natToDecString_ne_notNumeric (a : Nat) (s : String) :
    natToDecString a ≠ "NOT NUMERIC: " ++ s :=
  mk_ne_notNumeric _ (natDecChars_head_ne_N _) s

lemma fmtEChars_head (digits : List Char) (e : Int) (h : digits ≠ []) :
    ∃ c rest, fmtEChars digits e = c :: rest ∧ c ∈ digits := by
  cases digits with
  | nil => exact absurd rfl h
  | cons c cs => exact ⟨c, _, rfl, List.mem_cons_self _ _⟩

lemma fmtFChars_head (digits : List Char) (dp : Int) (h : digits ≠ []) :
    ∃ c rest, fmtFChars digits dp = c :: rest ∧ (c = '0' ∨ c ∈ digits) := by
  cases digits with
  | nil => exact absurd rfl h
  | cons c cs =>
    unfold fmtFChars
    split
    · exact ⟨'0', _, rfl, Or.inl rfl⟩
    · split
      · exact ⟨c, _, rfl, Or.inr (List.mem_cons_self _ _)⟩
      · refine ⟨c, cs.take (dp.toNat - 1) ++ '.' :: (c :: cs).drop dp.toNat,
          ?_, Or.inr (List.mem_cons_self _ _)⟩
        rename_i h1 h2
        have h3 : (c :: cs).take dp.toNat = c :: cs.take (dp.toNat - 1) := by
          have h4 : dp.toNat = (dp.toNat - 1) + 1 := by omega
          rw [h4]
          simp
        rw [h3]
        simp

lemma ratGChars_head_ne_N (q : ℚ) (ep : Int) : (ratGChars q ep).head? ≠ some 'N' := by
  unfold ratGChars
  split
  · decide
  · cases hdp : decParts q.num.natAbs q.den with
    | none =>
      show (['?'] : List Char).head? ≠ some 'N'
      decide
    | some pr =>
      obtain ⟨digits, dp⟩ := pr
      have hdigits : digits =
          natDecChars (factorOut 10 (q.num.natAbs * (10 ^ tensExp q.den / q.den))).2 := by
        unfold decParts at hdp
        split at hdp
        · exact absurd hdp (by simp)
        · simp only [Option.some.injEq, Prod.mk.injEq] at hdp
          exact hdp.1.symm
      have hne : digits ≠ [] := by rw [hdigits]; exact natDecChars_ne_nil _
      have hdig : ∀ c ∈ digits, ∃ k, k < 10 ∧ c = Nat.digitChar k := by
        rw [hdigits]; exact natDecChars_mem _
      rcases fmtEChars_head digits (dp - 1) hne with ⟨cE, restE, heqE, hcE⟩
      rcases fmtFChars_head digits dp hne with ⟨cF, restF, heqF, hcF⟩
      have hcEn : cE ≠ 'N' := by
        rcases hdig cE hcE with ⟨k, hk, rfl⟩
        exact digitChar_ne_N hk
      have hcFn : cF ≠ 'N' := by
        rcases hcF with rfl | hcF
        · decide
        · rcases hdig cF hcF with ⟨k, hk, rfl⟩
          exact digitChar_ne_N hk
      have hminus : ('-' : Char) ≠ 'N' := by decide
      intro hco
      dsimp only at hco
      split at hco
      · simp [hminus] at hco
      · split at hco
        · simp [heqE, hcEn] at hco
        · simp [heqF, hcFn] at hco

lemma bigFloatToString_ne_notNumeric (p : Nat) (q : ℚ) (s : String) :
    bigFloatToString p q ≠ "NOT NUMERIC: " ++ s :=
  mk_ne_notNumeric _ (ratGChars_head_ne_N _ _) s

lemma floatToString_ne_notNumeric (f : GoFloat) (s : String) :
    floatToString f ≠ "NOT NUMERIC: " ++ s := by
  unfold floatToString floatChars
  split
  · -- the NaN rendering "NaN" differs at the second character
    intro h
    have h2 := congrArg String.data h
    have h3 : (("NOT NUMERIC: " ++ s).data)[1]? = some 'O' := rfl
    rw [← h2] at h3
    exact absurd h3 (by decide)
  · exact mk_ne_notNumeric _ (ratGChars_head_ne_N _ _) s

/-! ### The claims -/

/-- C1 (code bug): for a signed-integer left operand against an unsigned
right operand the spec rejects exactly when the unsigned value exceeds
`2^63 - 1`, i.e. when the sign bit `0x8000000000000000` would be needed;
the code instead masks with `0x1000000000000000` (bit 60).  Consequence at
concrete inputs: `uint64(2^60)` (well inside the signed range) is rejected
against `int64(2^60)` even though the symmetric unsigned-dispatch direction
accepts the same pair, and `uint64(2^63)` (outside the signed range) is
accepted against `int64(-2^63)` through the two's-complement wrap-around. -/
theorem c1_sign_mask_bug :
    isEquivalentToInt (2 ^ 60) (.uintV .u64 (2 ^ 60)) = false ∧
    isEquivalentToUint (2 ^ 60) (.intV .i64 (2 ^ 60)) = true ∧
    isEquivalentToInt (-(2 ^ 63)) (.uintV .u64 (2 ^ 63)) = true ∧
    IsEquivalent ⟨[]⟩ 3 (.intV .i64 (2 ^ 60)) (.uintV .u64 (2 ^ 60)) = some false ∧
    IsEquivalent ⟨[]⟩ 3 (.intV .i64 (-(2 ^ 63))) (.uintV .u64 (2 ^ 63)) = some true :=
  ⟨by decide, by decide, by decide, by decide, by decide⟩

/-- C7 (code bug): an arbitrary-precision integer and a native float of the
same exact magnitude are compared through decimal-string renderings; for
`10^21` the float renders in exponent form (`1e+21`) while `big.Int.String`
renders plain digits, so both argument orders return `false` even though
the magnitudes agree exactly and `10^21` is exactly representable as a
`float64`.  Small magnitudes (e.g. `100`, as in the library's own tests)
and the big-to-big comparison of `10^21` still work. -/
theorem c7_bigint_vs_float_rendering_bug :
    IsEquivalent ⟨[]⟩ 5 (.bigIntV (10 ^ 21)) (.floatV .f64 ⟨false, mkRat (10 ^ 21) 1⟩) = some false ∧
    IsEquivalent ⟨[]⟩ 5 (.floatV .f64 ⟨false, mkRat (10 ^ 21) 1⟩) (.bigIntV (10 ^ 21)) = some false ∧
    isF64 (mkRat (10 ^ 21) 1) = true ∧
    IsEquivalent ⟨[]⟩ 5 (.bigIntV 100) (.floatV .f64 ⟨false, mkRat 100 1⟩) = some true ∧
    IsEquivalent ⟨[]⟩ 5 (.bigIntV (10 ^ 21)) (.bigIntV (10 ^ 21)) = some true :=
  ⟨by decide, by decide, by decide, by decide, by decide⟩

/-- C5 counterexample: the claim asserts a ~1e-10 relative tolerance for
two floating operands of the same concrete kind, but the current
implementation compares floats exactly: `1.0` and the `float64` value
`1 + 2^-40` differ by well under the claimed relative tolerance yet compare
not-equivalent. -/
theorem c5_counterexample_no_tolerance :
    IsEquivalent ⟨[]⟩ 5 (.floatV .f64 ⟨false, 1⟩)
      (.floatV .f64 ⟨false, mkRat (2 ^ 40 + 1) (2 ^ 40)⟩) = some false ∧
    isF64 (mkRat (2 ^ 40 + 1) (2 ^ 40)) = true ∧
    (1 : ℚ) ≠ mkRat (2 ^ 40 + 1) (2 ^ 40) ∧
    |(1 : ℚ) - mkRat (2 ^ 40 + 1) (2 ^ 40)| ≤ |(1 : ℚ)| * mkRat 1 (10 ^ 10) := by
  refine ⟨by decide, by decide, by decide, ?_⟩
  rw [Rat.mkRat_eq_div, Rat.mkRat_eq_div, abs_le]
  constructor <;> norm_num [abs_one]

/-- C5 corrected: for two floating operands (of any concrete float kinds)
the comparison returns true iff both are NaN or the values are exactly
equal — no tolerance is applied by the current implementation (the
tolerance existed only in the superseded revision of the file). -/
theorem c5_amended_exact_float_comparison (fk : FloatKind) (a b : GoFloat) :
    isEquivalentToFloat a (.floatV fk b) = true ↔
      (a.nan = true ∧ b.nan = true) ∨
      (a.nan = false ∧ b.nan = false ∧ a.val = b.val) := by
  unfold isEquivalentToFloat goFloatEq
  cases ha : a.nan <;> cases hb : b.nan <;> simp [ha, hb]

/-- C2 counterexample: reflexivity fails on four families of values: a
complex number with a NaN component is not equivalent to itself
(component-wise float `==`), a map with a NaN key is not equivalent to
itself (the key can never be looked up again), a `uintptr` is not
equivalent to itself (`reflect.Value.Pointer` panics on that kind, caught
into `false`), and a non-addressable `unsafe.Pointer` is not equivalent to
itself (`reflect.Value.UnsafeAddr` panics, caught into `false`). -/
theorem c2_counterexample_reflexivity_failures :
    IsEquivalent ⟨[]⟩ 3 (.complexV .c128 ⟨true, 0⟩ ⟨false, 0⟩)
      (.complexV .c128 ⟨true, 0⟩ ⟨false, 0⟩) = some false ∧
    IsEquivalent ⟨[.mapCell [(.floatV .f64 ⟨true, 0⟩, .intV .iK 1)]]⟩ 6
      (.mapV 0) (.mapV 0) = some false ∧
    IsEquivalent ⟨[]⟩ 3 (.uintptrV 5) (.uintptrV 5) = some false ∧
    IsEquivalent ⟨[]⟩ 3 (.uaddrV false 5) (.uaddrV false 5) = some false :=
  ⟨by decide, by decide, by decide, by decide⟩

/-- Kinds the dereference walker leaves untouched: everything except
pointers, interfaces and the absent value. -/
def isConcreteKind : Val → Bool
  | .ptrV _ => false
  | .ifaceV _ => false
  | .invalid => false
  | _ => true

/-- Numeric but not complex: native signed/unsigned/floating or one of the
two arbitrary-precision struct types. -/
def isNumericNonComplex : Val → Bool
  | .intV _ _ => true
  | .uintV _ _ => true
  | .floatV _ _ => true
  | .bigIntV _ => true
  | .bigFloatV _ _ => true
  | _ => false

/-- An empty container: an empty array, a slice with empty backing store,
or a map with an empty entry table. -/
def isEmptyContainer (H : Heap) : Val → Bool
  | .arrayV es => es.isEmpty
  | .sliceV id => (sliceElems H id).isEmpty
  | .mapV id => (mapEntries H id).isEmpty
  | _ => false

/-- C3: faults never escape the entry point: whenever the engine raises a
panic the public `IsEquivalent` returns `false`, and whenever the engine
completes the public result is exactly the engine's boolean — so (modulo
the model's fuel bookkeeping) the caller always receives a plain boolean,
never a fault. -/
theorem c3_fault_containment (H : Heap) (fuel : Nat) (a b : Val) :
    (areObjectsEquivalent H fuel a b initState = .error .panicked →
      IsEquivalent H fuel a b = some false) ∧
    (∀ r s2, areObjectsEquivalent H fuel a b initState = .ok (r, s2) →
      IsEquivalent H fuel a b = some r) := by
  constructor
  · intro h
    unfold IsEquivalent
    split
    · exfalso
      match fuel with
      | 0 => simp [areObjectsEquivalent] at h
      | 1 => simp [areObjectsEquivalent, drillDown] at h
      | fuel'' + 2 => simp [areObjectsEquivalent, drillDown] at h
    · rw [h]
  · intro r s2 h
    unfold IsEquivalent
    split
    · match fuel with
      | 0 => simp [areObjectsEquivalent] at h
      | 1 => simp [areObjectsEquivalent, drillDown] at h
      | fuel'' + 2 =>
        simp [areObjectsEquivalent, drillDown] at h
        rw [h.1]
    · rw [h]

/-- C3 witness input: a slice compared against an int panics inside the
length access and the entry point converts the fault to `false`. -/
theorem c3_fault_containment_witness :
    areObjectsEquivalent ⟨[.sliceCell []]⟩ 5 (.sliceV 0) (.intV .iK 3) initState =
      .error .panicked ∧
    IsEquivalent ⟨[.sliceCell []]⟩ 5 (.sliceV 0) (.intV .iK 3) = some false :=
  ⟨rfl, (c3_fault_containment ⟨[.sliceCell []]⟩ 5 (.sliceV 0) (.intV .iK 3)).1 rfl⟩

/-- C10: a complex operand is equivalent only to complex values: against
every non-complex numeric operand (native or arbitrary-precision) both
argument orders yield `false` — with a complex left operand through the
caught panic of the blind `Complex` access, with a numeric left operand
through the helpers' conservative default. -/
theorem c10_complex_never_cross_kind (H : Heap) (n : Nat) (ck : ComplexKind)
    (re im : GoFloat) (b : Val) (hb : isNumericNonComplex b = true) :
    IsEquivalent H (n + 2) (.complexV ck re im) b = some false ∧
    IsEquivalent H (n + 2) b (.complexV ck re im) = some false := by
  have hbi : ∀ (v : Int), (intToDecString v == numericToString (.complexV ck re im)) = false := by
    intro v
    rw [beq_eq_false_iff_ne]
    exact intToDecString_ne_notNumeric v _
  have hbn : ∀ (v : Nat), (natToDecString v == numericToString (.complexV ck re im)) = false := by
    intro v
    rw [beq_eq_false_iff_ne]
    exact natToDecString_ne_notNumeric v _
  have hbf : ∀ (p : Nat) (q : ℚ), (bigFloatToString p q == numericToString (.complexV ck re im)) = false := by
    intro p q
    rw [beq_eq_false_iff_ne]
    exact bigFloatToString_ne_notNumeric p q _
  have hff : ∀ (f : GoFloat), (floatToString f == numericToString (.complexV ck re im)) = false := by
    intro f
    rw [beq_eq_false_iff_ne]
    exact floatToString_ne_notNumeric f _
  cases b <;> simp [isNumericNonComplex] at hb <;>
    exact ⟨by simp [IsEquivalent, areObjectsEquivalent, drillDown],
      by simp [IsEquivalent, areObjectsEquivalent, drillDown, areStructsEquivalent,
        isEquivalentToInt, isEquivalentToUint, isEquivalentToFloat,
        isEquivalentToBigInt, isEquivalentToBigFloat, hbi, hbn, hbf, hff]⟩

lemma lenE_empty (H : Heap) (b : Val) (hb : isEmptyContainer H b = true) :
    lenE H b = .ok 0 := by
  cases b <;> simp [isEmptyContainer, List.isEmpty_iff] at hb <;>
    simp [lenE, hb]

/-- C8: any two empty containers (empty array, empty-backed slice, or empty
map, of any declared element/key/value types, even mixing sequence and
mapping) are equivalent: the engine returns `true` and so does the public
entry point. -/
theorem c8_empty_containers (H : Heap) (n : Nat) (s : CompState) (a b : Val)
    (ha : isEmptyContainer H a = true) (hb : isEmptyContainer H b = true) :
    (∃ s2, areObjectsEquivalent H (n + 3) a b s = .ok (true, s2)) ∧
    IsEquivalent H (n + 3) a b = some true := by
  have hlb := lenE_empty H b hb
  have key : ∀ s' : CompState, ∃ s2, areObjectsEquivalent H (n + 3) a b s' = .ok (true, s2) := by
    intro s'
    cases a with
    | arrayV es =>
      simp only [isEmptyContainer, List.isEmpty_iff] at ha
      cases b <;> simp [isEmptyContainer, List.isEmpty_iff] at hb
      all_goals
        simp [areObjectsEquivalent, drillDown, areArraysOrSlicesEquivalent,
          arrLoop, lenE, ha, hb]
    | sliceV id =>
      simp only [isEmptyContainer, List.isEmpty_iff] at ha
      cases b <;> simp [isEmptyContainer, List.isEmpty_iff] at hb
      all_goals
        cases hreg : s'.aF.registerPointer id with
        | mk dup f2 =>
          cases dup
          · simp [areObjectsEquivalent, drillDown, areArraysOrSlicesEquivalent,
              arrLoop, lenE, ha, hb, hreg]
          · simp [areObjectsEquivalent, drillDown, hreg]
    | mapV id =>
      simp only [isEmptyContainer, List.isEmpty_iff] at ha
      cases b <;> simp [isEmptyContainer, List.isEmpty_iff] at hb
      all_goals
        cases hreg : s'.aF.registerPointer id with
        | mk dup f2 =>
          cases dup
          · simp [areObjectsEquivalent, drillDown, areMapsEquivalent,
              mapLoop, lenE, ha, hb, hreg]
          · simp [areObjectsEquivalent, drillDown, hreg]
    | _ => simp [isEmptyContainer] at ha
  refine ⟨key s, ?_⟩
  rcases key initState with ⟨s2, h2⟩
  unfold IsEquivalent
  split
  · rfl
  · rw [h2]

/-- C8 witness: an empty slice and an empty map are equivalent. -/
theorem c8_empty_containers_witness :
    (∃ s2, areObjectsEquivalent ⟨[.sliceCell [], .mapCell []]⟩ 3
      (.sliceV 0) (.mapV 1) initState = .ok (true, s2)) ∧
    IsEquivalent ⟨[.sliceCell [], .mapCell []]⟩ 3 (.sliceV 0) (.mapV 1) = some true :=
  c8_empty_containers ⟨[.sliceCell [], .mapCell []]⟩ 0 initState
    (.sliceV 0) (.mapV 1) (by decide) (by decide)

/-- C10 witness: complex 5+0i against int 5 in both orders. -/
theorem c10_complex_never_cross_kind_witness :
    IsEquivalent ⟨[]⟩ 2 (.complexV .c128 ⟨false, 5⟩ ⟨false, 0⟩) (.intV .iK 5) = some false ∧
    IsEquivalent ⟨[]⟩ 2 (.intV .iK 5) (.complexV .c128 ⟨false, 5⟩ ⟨false, 0⟩) = some false :=
  c10_complex_never_cross_kind ⟨[]⟩ 0 .c128 ⟨false, 5⟩ ⟨false, 0⟩ (.intV .iK 5) (by decide)

/-- C9: a typed nil pointer drills down (through the registered pointer
identity) to the absent value; the absent value is equivalent to absent and
not equivalent to any present value.  Hence `IsEquivalent(nil, p)` and
`IsEquivalent(p, nil)` are true for a typed nil `p`, and after drill-down
the result is true when both sides are absent and false when exactly one
is. -/
theorem c9_typed_nil_drills_to_invalid (H : Heap) (n : Nat) (id : Nat)
    (hc : H.cellAt id = some (.ptrCell none)) :
    IsEquivalent H (n + 3) .invalid (.ptrV id) = some true ∧
    IsEquivalent H (n + 3) (.ptrV id) .invalid = some true ∧
    (∀ s : CompState, areObjectsEquivalent H (n + 2) .invalid .invalid s = .ok (true, s)) ∧
    (∀ (s : CompState) (b : Val), isConcreteKind b = true →
      areObjectsEquivalent H (n + 2) .invalid b s = .ok (false, s) ∧
      areObjectsEquivalent H (n + 2) b .invalid s = .ok (false, s)) := by
  refine ⟨?_, ?_, ?_, ?_⟩
  · simp [IsEquivalent, areObjectsEquivalent, drillDown, ptrElem, hc,
      initState, Finder.registerPointer]
  · simp [IsEquivalent, areObjectsEquivalent, drillDown, ptrElem, hc,
      initState, Finder.registerPointer]
  · intro s
    simp [areObjectsEquivalent, drillDown]
  · intro s b hb
    cases b <;> simp [isConcreteKind] at hb <;>
      exact ⟨by simp [areObjectsEquivalent, drillDown],
        by simp [areObjectsEquivalent, drillDown]⟩

/-- C9 witness: a typed nil pointer against untyped nil, plus the
exactly-one-absent case at a boolean. -/
theorem c9_typed_nil_witness :
    IsEquivalent ⟨[.ptrCell none]⟩ 3 .invalid (.ptrV 0) = some true ∧
    IsEquivalent ⟨[.ptrCell none]⟩ 3 (.ptrV 0) .invalid = some true ∧
    areObjectsEquivalent ⟨[.ptrCell none]⟩ 2 .invalid (.boolV true) initState =
      .ok (false, initState) := by
  have h := c9_typed_nil_drills_to_invalid ⟨[.ptrCell none]⟩ 0 0 rfl
  exact ⟨h.1, h.2.1, (h.2.2.2 initState (.boolV true) (by decide)).1⟩

/-- C4: when a reference identity on the left side is seen a second time
during the same call — a pointer met again during drill-down, or a slice's
or map's backing identity already registered — the pair at that point is
declared equivalent immediately, with no further recursion and no change to
the comparator state; consequently two independently built one-element
self-referential slices compare equivalent at finite fuel. -/
theorem c4_cycle_guard_short_circuit :
    (∀ (H : Heap) (n : Nat) (s : CompState) (id : Nat) (b : Val),
      isConcreteKind b = true → id ∈ s.aF.ids →
      areObjectsEquivalent H (n + 2) (.ptrV id) b s = .ok (true, s)) ∧
    (∀ (H : Heap) (n : Nat) (s : CompState) (id : Nat) (b : Val),
      isConcreteKind b = true → id ∈ s.aF.ids →
      areObjectsEquivalent H (n + 2) (.sliceV id) b s = .ok (true, s)) ∧
    (∀ (H : Heap) (n : Nat) (s : CompState) (id : Nat) (b : Val),
      isConcreteKind b = true → id ∈ s.aF.ids →
      areObjectsEquivalent H (n + 2) (.mapV id) b s = .ok (true, s)) ∧
    IsEquivalent ⟨[.sliceCell [.sliceV 0], .sliceCell [.sliceV 1]]⟩ 10
      (.sliceV 0) (.sliceV 1) = some true := by
  refine ⟨?_, ?_, ?_, by decide⟩
  all_goals
    intro H n s id b hb hid
    cases b <;> simp [isConcreteKind] at hb <;>
      simp [areObjectsEquivalent, drillDown, Finder.registerPointer, hid]

/-- C4 witness: instantiation of the short-circuit rules at concrete
inputs, plus the concrete cyclic pair. -/
theorem c4_cycle_guard_witness :
    areObjectsEquivalent ⟨[.ptrCell none]⟩ 2 (.ptrV 0) (.boolV true)
      ⟨⟨[0]⟩, ⟨[]⟩⟩ = .ok (true, ⟨⟨[0]⟩, ⟨[]⟩⟩) ∧
    areObjectsEquivalent ⟨[.sliceCell []]⟩ 2 (.sliceV 0) (.boolV true)
      ⟨⟨[0]⟩, ⟨[]⟩⟩ = .ok (true, ⟨⟨[0]⟩, ⟨[]⟩⟩) ∧
    IsEquivalent ⟨[.sliceCell [.sliceV 0], .sliceCell [.sliceV 1]]⟩ 10
      (.sliceV 0) (.sliceV 1) = some true :=
  ⟨c4_cycle_guard_short_circuit.1 ⟨[.ptrCell none]⟩ 0 ⟨⟨[0]⟩, ⟨[]⟩⟩ 0
      (.boolV true) (by decide) (by simp),
    c4_cycle_guard_short_circuit.2.1 ⟨[.sliceCell []]⟩ 0 ⟨⟨[0]⟩, ⟨[]⟩⟩ 0
      (.boolV true) (by decide) (by simp),
    c4_cycle_guard_short_circuit.2.2.2⟩

/-! ### C6: the keyed-lookup resolver -/

/-- C6 counterexample: a float64 key is never re-encoded at the narrowed
float width.  The mapping holds an entry keyed `float32(2.5)`; the probe key
`float64(2.5)` is numerically equal under the lossless narrowing (2.5 is
exactly representable in float32), yet the resolver reports not-found — its
floating branch probes only integral re-encodings.  Consequently two maps
that differ only in the concrete float kind of a non-integral key are not
equivalent. -/
theorem c6_counterexample_float_key_not_probed :
    getMapValue [(.floatV .f32 ⟨false, mkRat 5 2⟩, .boolV true)]
      (.floatV .f64 ⟨false, mkRat 5 2⟩) = none ∧
    isF32 (mkRat 5 2) = true ∧
    IsEquivalent ⟨[.mapCell [(.floatV .f32 ⟨false, mkRat 5 2⟩, .boolV true)],
        .mapCell [(.floatV .f64 ⟨false, mkRat 5 2⟩, .boolV true)]]⟩ 8
      (.mapV 1) (.mapV 0) = some false :=
  ⟨rfl, by decide, by decide⟩

/-- The entry key `κ` denotes the integer `n` as a native numeric value
(the lossless re-encodings of `n` the resolver can probe). -/
def keyDenotesInt (κ : Val) (n : Int) : Prop :=
  (∃ k, κ = .intV k n) ∨
  (∃ k u, κ = .uintV k u ∧ (u : Int) = n) ∨
  (∃ fk, κ = .floatV fk ⟨false, (n : ℚ)⟩)

/-- Well-formedness of an entry key as real Go data: integer payloads are in
the range of their width, a float32 payload is representable at that
width. -/
def keyWF : Val → Bool
  | .intV k v => k.inRange v
  | .uintV k v => k.inRange v
  | .floatV .f32 f => f.nan || isF32 f.val
  | _ => true

lemma orElse_some_inv {α : Type} {a b : Option α} {x : α}
    (h : (a <|> b) = some x) : a = some x ∨ (a = none ∧ b = some x) := by
  cases a <;> simp_all

lemma orElse_isSome_left {α : Type} {a b : Option α}
    (h : ∃ x, a = some x) : ∃ y, (a <|> b) = some y := by
  rcases h with ⟨x, hx⟩
  exact ⟨x, by simp [hx]⟩

lemma orElse_isSome_right {α : Type} {a b : Option α}
    (h : ∃ x, b = some x) : ∃ y, (a <|> b) = some y := by
  rcases h with ⟨x, hx⟩
  cases a <;> simp_all

lemma mapIndex_some {m : List (Val × Val)} {p w : Val}
    (h : mapIndex m p = some w) :
    ∃ κ, (κ, w) ∈ m ∧ goEq κ p = true := by
  unfold mapIndex at h
  cases hf : m.find? (fun kv => goEq kv.1 p) with
  | none => rw [hf] at h; simp at h
  | some kv =>
    rw [hf] at h
    simp at h
    have hm := List.mem_of_find?_eq_some hf
    have hp := List.find?_some hf
    exact ⟨kv.1, by rw [← h]; simpa using hm, by simpa using hp⟩

lemma mapIndex_isSome {m : List (Val × Val)} {p κ w : Val}
    (hm : (κ, w) ∈ m) (hp : goEq κ p = true) :
    ∃ w2, mapIndex m p = some w2 := by
  unfold mapIndex
  cases hf : m.find? (fun kv => goEq kv.1 p) with
  | some kv => exact ⟨kv.2, rfl⟩
  | none =>
    exfalso
    have h2 := List.find?_eq_none.mp hf (κ, w) hm
    simp at h2
    simp [hp] at h2

lemma goEq_intV {κ : Val} {k : IntKind} {v : Int} (h : goEq κ (.intV k v) = true) :
    κ = .intV k v := by
  cases κ <;> simp_all [goEq]

lemma goEq_uintV {κ : Val} {k : UintKind} {v : Nat} (h : goEq κ (.uintV k v) = true) :
    κ = .uintV k v := by
  cases κ <;> simp_all [goEq]

lemma goEq_floatV {κ : Val} {k : FloatKind} {f : GoFloat} (h : goEq κ (.floatV k f) = true) :
    κ = .floatV k ⟨false, f.val⟩ ∧ f.nan = false := by
  cases κ with
  | floatV k2 f2 =>
    obtain ⟨fn, fv⟩ := f2
    simp_all [goEq, goFloatEq]
  | _ => simp_all [goEq]

lemma getInt_some {m : List (Val × Val)} {n : Int} {w2 : Val}
    (h : getIntKeyedMapValue m n = some w2) :
    ∃ κ2, (κ2, w2) ∈ m ∧ ∃ k, κ2 = .intV k n := by
  unfold getIntKeyedMapValue at h
  rcases orElse_some_inv h with h1 | ⟨_, h⟩
  · rcases mapIndex_some h1 with ⟨κ, hm, hp⟩
    exact ⟨κ, hm, _, goEq_intV hp⟩
  rcases orElse_some_inv h with h1 | ⟨_, h⟩
  · rcases mapIndex_some h1 with ⟨κ, hm, hp⟩
    exact ⟨κ, hm, _, goEq_intV hp⟩
  rcases orElse_some_inv h with h1 | ⟨_, h⟩
  · split at h1
    · rcases mapIndex_some h1 with ⟨κ, hm, hp⟩
      exact ⟨κ, hm, _, goEq_intV hp⟩
    · simp at h1
  rcases orElse_some_inv h with h1 | ⟨_, h⟩
  · split at h1
    · rcases mapIndex_some h1 with ⟨κ, hm, hp⟩
      exact ⟨κ, hm, _, goEq_intV hp⟩
    · simp at h1
  · split at h
    · rcases mapIndex_some h with ⟨κ, hm, hp⟩
      exact ⟨κ, hm, _, goEq_intV hp⟩
    · simp at h

lemma getUint_some {m : List (Val × Val)} {u : Nat} {w2 : Val}
    (h : getUintKeyedMapValue m u = some w2) :
    ∃ κ2, (κ2, w2) ∈ m ∧ ∃ k, κ2 = .uintV k u := by
  unfold getUintKeyedMapValue at h
  rcases orElse_some_inv h with h1 | ⟨_, h⟩
  · rcases mapIndex_some h1 with ⟨κ, hm, hp⟩
    exact ⟨κ, hm, _, goEq_uintV hp⟩
  rcases orElse_some_inv h with h1 | ⟨_, h⟩
  · rcases mapIndex_some h1 with ⟨κ, hm, hp⟩
    exact ⟨κ, hm, _, goEq_uintV hp⟩
  rcases orElse_some_inv h with h1 | ⟨_, h⟩
  · split at h1
    · rcases mapIndex_some h1 with ⟨κ, hm, hp⟩
      exact ⟨κ, hm, _, goEq_uintV hp⟩
    · simp at h1
  rcases orElse_some_inv h with h1 | ⟨_, h⟩
  · split at h1
    · rcases mapIndex_some h1 with ⟨κ, hm, hp⟩
      exact ⟨κ, hm, _, goEq_uintV hp⟩
    · simp at h1
  · split at h
    · rcases mapIndex_some h with ⟨κ, hm, hp⟩
      exact ⟨κ, hm, _, goEq_uintV hp⟩
    · simp at h

lemma getFloat_some {m : List (Val × Val)} {f : GoFloat} {w2 : Val}
    (h : getFloatKeyedMapValue m f = some w2) :
    ∃ κ2, (κ2, w2) ∈ m ∧ ∃ fk, κ2 = .floatV fk ⟨false, f.val⟩ := by
  unfold getFloatKeyedMapValue at h
  rcases orElse_some_inv h with h1 | ⟨_, h⟩
  · rcases mapIndex_some h1 with ⟨κ, hm, hp⟩
    exact ⟨κ, hm, _, (goEq_floatV hp).1⟩
  · split at h
    · rcases mapIndex_some h with ⟨κ, hm, hp⟩
      exact ⟨κ, hm, _, (goEq_floatV hp).1⟩
    · simp at h

lemma getInt_isSome {m : List (Val × Val)} {n : Int} {k : IntKind} {w : Val}
    (hm : (.intV k n, w) ∈ m) (hr : k.inRange n = true) :
    ∃ w2, getIntKeyedMapValue m n = some w2 := by
  unfold getIntKeyedMapValue
  cases k with
  | i64 => exact orElse_isSome_left (mapIndex_isSome hm (by simp [goEq]))
  | iK =>
    exact orElse_isSome_right (orElse_isSome_left (mapIndex_isSome hm (by simp [goEq])))
  | i32 =>
    refine orElse_isSome_right (orElse_isSome_right (orElse_isSome_left ?_))
    rw [if_pos hr]
    exact mapIndex_isSome hm (by simp [goEq])
  | i16 =>
    refine orElse_isSome_right (orElse_isSome_right (orElse_isSome_right
      (orElse_isSome_left ?_)))
    rw [if_pos hr]
    exact mapIndex_isSome hm (by simp [goEq])
  | i8 =>
    refine orElse_isSome_right (orElse_isSome_right (orElse_isSome_right
      (orElse_isSome_right ?_)))
    rw [if_pos hr]
    exact mapIndex_isSome hm (by simp [goEq])

lemma getUint_isSome {m : List (Val × Val)} {u : Nat} {k : UintKind} {w : Val}
    (hm : (.uintV k u, w) ∈ m) (hr : k.inRange u = true) :
    ∃ w2, getUintKeyedMapValue m u = some w2 := by
  unfold getUintKeyedMapValue
  cases k with
  | u64 => exact orElse_isSome_left (mapIndex_isSome hm (by simp [goEq]))
  | uK =>
    exact orElse_isSome_right (orElse_isSome_left (mapIndex_isSome hm (by simp [goEq])))
  | u32 =>
    refine orElse_isSome_right (orElse_isSome_right (orElse_isSome_left ?_))
    rw [if_pos hr]
    exact mapIndex_isSome hm (by simp [goEq])
  | u16 =>
    refine orElse_isSome_right (orElse_isSome_right (orElse_isSome_right
      (orElse_isSome_left ?_)))
    rw [if_pos hr]
    exact mapIndex_isSome hm (by simp [goEq])
  | u8 =>
    refine orElse_isSome_right (orElse_isSome_right (orElse_isSome_right
      (orElse_isSome_right ?_)))
    rw [if_pos hr]
    exact mapIndex_isSome hm (by simp [goEq])

lemma getFloat_isSome {m : List (Val × Val)} {q : ℚ} {fk : FloatKind} {w : Val}
    (hm : (.floatV fk ⟨false, q⟩, w) ∈ m) (h32 : fk = .f32 → isF32 q = true) :
    ∃ w2, getFloatKeyedMapValue m ⟨false, q⟩ = some w2 := by
  unfold getFloatKeyedMapValue
  cases fk with
  | f64 => exact orElse_isSome_left (mapIndex_isSome hm (by simp [goEq, goFloatEq]))
  | f32 =>
    refine orElse_isSome_right ?_
    have hc : (!(GoFloat.mk false q).nan && isF32 (GoFloat.mk false q).val) = true := by
      simp [h32 rfl]
    rw [if_pos hc]
    exact mapIndex_isSome hm (by simp [goEq, goFloatEq])

lemma int_inRange_bounds {k : IntKind} {n : Int} (h : k.inRange n = true) :
    -(2 ^ 63) ≤ n ∧ n < 2 ^ 63 := by
  cases k <;> simp [IntKind.inRange] at h <;> omega

/-- C6 corrected: the resolver first tries the exact lookup; on failure it
probes re-encodings determined by the lookup key's kind — for a signed key
the signed widths (64, int, 32, 16, 8), then (for nonnegative keys) the
unsigned widths, then float64/float32; for an unsigned key the unsigned
widths first, then the signed widths, then the floats; for a floating key
only exact integral re-encodings and never the narrowed float width (the
counterexample).  Consequently, for every signed- or unsigned-integer
lookup key denoting `n` and every mapping containing a well-formed entry
whose key natively denotes `n`, the resolver returns the value of some
entry whose key denotes `n`. -/
theorem c6_amended_integer_key_lookup (m : List (Val × Val)) (key : Val)
    (n : Int) (κ w : Val) (hmem : (κ, w) ∈ m) (hκ : keyDenotesInt κ n)
    (hwf : keyWF κ = true)
    (hkey : (∃ ik, key = .intV ik n) ∨ (∃ uk u, key = .uintV uk u ∧ (u : Int) = n)) :
    ∃ κ2 w2, (κ2, w2) ∈ m ∧ keyDenotesInt κ2 n ∧ getMapValue m key = some w2 := by
  rcases hkey with ⟨ik, hkk⟩ | ⟨uk, u0, hkk, hu0⟩
  · subst hkk
    cases hini : mapIndex m (.intV ik n) with
    | some w2 =>
      rcases mapIndex_some hini with ⟨κ2, hm2, hp⟩
      refine ⟨κ2, w2, hm2, Or.inl ⟨_, goEq_intV hp⟩, ?_⟩
      simp [getMapValue, hini]
    | none =>
      have hspec : ∀ w2, (getIntKeyedMapValue m n <|>
          ((if 0 ≤ n then getUintKeyedMapValue m n.toNat else none) <|>
            getFloatKeyedMapValue m ⟨false, (n : ℚ)⟩)) = some w2 →
          ∃ κ2, (κ2, w2) ∈ m ∧ keyDenotesInt κ2 n := by
        intro w2 hch
        rcases orElse_some_inv hch with h1 | ⟨_, hch⟩
        · rcases getInt_some h1 with ⟨κ2, hm2, k2, hk2⟩
          exact ⟨κ2, hm2, Or.inl ⟨k2, hk2⟩⟩
        rcases orElse_some_inv hch with h1 | ⟨_, hch⟩
        · split at h1
          · rename_i h0n
            rcases getUint_some h1 with ⟨κ2, hm2, k2, hk2⟩
            exact ⟨κ2, hm2, Or.inr (Or.inl ⟨k2, n.toNat, hk2, by omega⟩)⟩
          · simp at h1
        · rcases getFloat_some hch with ⟨κ2, hm2, fk2, hk2⟩
          exact ⟨κ2, hm2, Or.inr (Or.inr ⟨fk2, hk2⟩)⟩
      have hex : ∃ w2, (getIntKeyedMapValue m n <|>
          ((if 0 ≤ n then getUintKeyedMapValue m n.toNat else none) <|>
            getFloatKeyedMapValue m ⟨false, (n : ℚ)⟩)) = some w2 := by
        rcases hκ with ⟨k, hk⟩ | ⟨k, u, hk, hu⟩ | ⟨fk, hk⟩
        · subst hk
          exact orElse_isSome_left (getInt_isSome hmem (by simpa [keyWF] using hwf))
        · subst hk
          cases hgi : getIntKeyedMapValue m n with
          | some w2 => exact ⟨w2, by simp [hgi]⟩
          | none =>
            refine orElse_isSome_right (orElse_isSome_left ?_)
            have h0 : 0 ≤ n := by omega
            rw [if_pos h0]
            have hun : n.toNat = u := by omega
            rw [hun]
            exact getUint_isSome hmem (by simpa [keyWF] using hwf)
        · subst hk
          refine orElse_isSome_right (orElse_isSome_right ?_)
          apply getFloat_isSome hmem
          intro h32
          rw [h32] at hwf
          simpa [keyWF] using hwf
      rcases hex with ⟨w2, hw2⟩
      rcases hspec w2 hw2 with ⟨κ2, hm2, hd⟩
      refine ⟨κ2, w2, hm2, hd, ?_⟩
      simpa [getMapValue, hini] using hw2
  · subst hkk
    have hq : ((u0 : Nat) : ℚ) = ((n : Int) : ℚ) := by
      rw [← hu0]
      exact (Int.cast_natCast u0).symm
    cases hini : mapIndex m (.uintV uk u0) with
    | some w2 =>
      rcases mapIndex_some hini with ⟨κ2, hm2, hp⟩
      refine ⟨κ2, w2, hm2, Or.inr (Or.inl ⟨_, u0, goEq_uintV hp, hu0⟩), ?_⟩
      simp [getMapValue, hini]
    | none =>
      have hspec : ∀ w2, (getUintKeyedMapValue m u0 <|>
          ((if (u0 : Int) ≤ 2 ^ 63 - 1 then getIntKeyedMapValue m (u0 : Int) else none) <|>
            getFloatKeyedMapValue m ⟨false, (u0 : ℚ)⟩)) = some w2 →
          ∃ κ2, (κ2, w2) ∈ m ∧ keyDenotesInt κ2 n := by
        intro w2 hch
        rcases orElse_some_inv hch with h1 | ⟨_, hch⟩
        · rcases getUint_some h1 with ⟨κ2, hm2, k2, hk2⟩
          exact ⟨κ2, hm2, Or.inr (Or.inl ⟨k2, u0, hk2, hu0⟩)⟩
        rcases orElse_some_inv hch with h1 | ⟨_, hch⟩
        · split at h1
          · rcases getInt_some h1 with ⟨κ2, hm2, k2, hk2⟩
            rw [hu0] at hk2
            exact ⟨κ2, hm2, Or.inl ⟨k2, hk2⟩⟩
          · simp at h1
        · rcases getFloat_some hch with ⟨κ2, hm2, fk2, hk2⟩
          refine ⟨κ2, hm2, Or.inr (Or.inr ⟨fk2, ?_⟩)⟩
          rw [hk2]
          simp only
          rw [hq]
      have hex : ∃ w2, (getUintKeyedMapValue m u0 <|>
          ((if (u0 : Int) ≤ 2 ^ 63 - 1 then getIntKeyedMapValue m (u0 : Int) else none) <|>
            getFloatKeyedMapValue m ⟨false, (u0 : ℚ)⟩)) = some w2 := by
        rcases hκ with ⟨k, hk⟩ | ⟨k, u, hk, hu⟩ | ⟨fk, hk⟩
        · cases hgu : getUintKeyedMapValue m u0 with
          | some w2 => exact ⟨w2, by simp [hgu]⟩
          | none =>
            subst hk
            refine orElse_isSome_right (orElse_isSome_left ?_)
            have hb := int_inRange_bounds (show IntKind.inRange k n = true by
              simpa [keyWF] using hwf)
            have hle : (u0 : Int) ≤ 2 ^ 63 - 1 := by omega
            rw [if_pos hle, hu0]
            exact getInt_isSome hmem (by simpa [keyWF] using hwf)
        · subst hk
          have huu : u = u0 := by omega
          subst huu
          exact orElse_isSome_left (getUint_isSome hmem (by simpa [keyWF] using hwf))
        · cases hgu : getUintKeyedMapValue m u0 with
          | some w2 => exact ⟨w2, by simp [hgu]⟩
          | none =>
            cases hgi : (if (u0 : Int) ≤ 2 ^ 63 - 1 then
                getIntKeyedMapValue m (u0 : Int) else none) with
            | some w2 => exact ⟨w2, by simp [hgu, hgi]⟩
            | none =>
              refine orElse_isSome_right (orElse_isSome_right ?_)
              have hmem2 : (Val.floatV fk ⟨false, (u0 : ℚ)⟩, w) ∈ m := by
                rw [hq, ← hk]
                exact hmem
              apply getFloat_isSome hmem2
              intro h32
              rw [h32] at hk
              rw [hk] at hwf
              have := (show isF32 ((n : Int) : ℚ) = true by simpa [keyWF] using hwf)
              rw [hq]
              exact this
      rcases hex with ⟨w2, hw2⟩
      rcases hspec w2 hw2 with ⟨κ2, hm2, hd⟩
      refine ⟨κ2, w2, hm2, hd, ?_⟩
      simpa [getMapValue, hini] using hw2

/-- C6 witness: an int64 lookup key 5 finds the entry keyed uint8(5). -/
theorem c6_amended_integer_key_lookup_witness :
    ∃ κ2 w2, (κ2, w2) ∈ [((Val.uintV .u8 5 : Val), (Val.boolV true : Val))] ∧
      keyDenotesInt κ2 5 ∧
      getMapValue [(Val.uintV .u8 5, Val.boolV true)] (.intV .i64 5) = some w2 :=
  c6_amended_integer_key_lookup [(Val.uintV .u8 5, Val.boolV true)] (.intV .i64 5)
    5 (Val.uintV .u8 5) (Val.boolV true) (by simp)
    (Or.inr (Or.inl ⟨.u8, 5, rfl, rfl⟩)) (by decide) (Or.inl ⟨.i64, rfl⟩)

/-! ### C2: reflexivity.  Infrastructure: sizes, well-formedness, and the
unregistered-identity measure -/

mutual

/-- Structural size of a value (interfaces and containers count their
contents; reference values count 1 — their cells are measured through the
registration measure instead). -/
def valSize : Val → Nat
  | .arrayV es => valListSize es + 1
  | .structV _ fs => valListSize fs + 1
  | .ifaceV v => valSize v + 1
  | _ => 1

/-- Size of a list of values. -/
def valListSize : List Val → Nat
  | [] => 0
  | v :: vs => valSize v + valListSize vs + 1

end

mutual

/-- Well-formedness of a value over a heap with `N` cells: reference ids in
range, no complex component is NaN, no `uintptr` is reachable by the
dispatcher (its comparison panics on every execution) and every reachable
`unsafe.Pointer` is addressable (`UnsafeAddr` panics otherwise) — the
excluded cases are exactly the reflexivity counterexamples.  Map keys are
governed by `mapCellOK` instead and may be of any comparable kind. -/
def valOK (N : Nat) : Val → Bool
  | .complexV _ re im => !re.nan && !im.nan
  | .arrayV es => valListOK N es
  | .structV _ fs => valListOK N fs
  | .ifaceV v => valOK N v
  | .ptrV id => decide (id < N)
  | .sliceV id => decide (id < N)
  | .mapV id => decide (id < N)
  | .uintptrV _ => false
  | .uaddrV aAdd _ => aAdd
  | _ => true

/-- All values of a list well-formed. -/
def valListOK (N : Nat) : List Val → Bool
  | [] => true
  | v :: vs => valOK N v && valListOK N vs

end

/-- Keys may not be interface-wrapped in the model (map cells store the
dynamic key value directly, mirroring how Go hashes the dynamic value). -/
def keyShapeOK : Val → Bool
  | .ifaceV _ => false
  | _ => true

/-- Well-formedness of a map entry table: every key is self-equal under Go
`==` (this excludes NaN-containing keys, which Go can store but never find
again), keys are pairwise distinct (a Go map invariant), keys are stored
unwrapped, and all values are well-formed. -/
def mapCellOK (N : Nat) : List (Val × Val) → Bool
  | [] => true
  | (k, v) :: rest =>
    goEq k k && keyShapeOK k && valOK N v &&
    rest.all (fun kv => !goEq kv.1 k && !goEq k kv.1) &&
    mapCellOK N rest

/-- Well-formedness of a heap cell. -/
def cellOK (N : Nat) : Cell → Bool
  | .ptrCell none => true
  | .ptrCell (some v) => valOK N v
  | .sliceCell es => valListOK N es
  | .mapCell kvs => mapCellOK N kvs

/-- Well-formedness of the whole heap. -/
def heapOK (H : Heap) : Bool :=
  H.cells.all (cellOK H.cells.length)

/-- Number of identities of the heap's id universe not yet registered in a
finder: the strictly-decreasing component of the termination measure. -/
def unreg (N : Nat) (f : Finder) : Nat :=
  ((List.range N).filter (fun i => decide (i ∉ f.ids))).length

lemma length_filter_le_of_imp {l : List Nat} {p q : Nat → Bool}
    (h : ∀ a, q a = true → p a = true) :
    (l.filter q).length ≤ (l.filter p).length := by
  induction l with
  | nil => simp
  | cons a l ih =>
    cases hq : q a with
    | true => simp [List.filter_cons, hq, h a hq]; omega
    | false =>
      cases hp : p a <;> simp [List.filter_cons, hq, hp] <;> omega

lemma length_filter_lt_of_imp {l : List Nat} {p q : Nat → Bool} {a0 : Nat}
    (h : ∀ a, q a = true → p a = true) (hmem : a0 ∈ l)
    (hp0 : p a0 = true) (hq0 : q a0 = false) :
    (l.filter q).length < (l.filter p).length := by
  induction l with
  | nil => simp at hmem
  | cons a l ih =>
    rcases List.mem_cons.mp hmem with rfl | hmem2
    · have hle : (l.filter q).length ≤ (l.filter p).length :=
        length_filter_le_of_imp h
      simp [List.filter_cons, hp0, hq0]
      omega
    · have hlt := ih hmem2
      cases hq : q a with
      | true =>
        simp [List.filter_cons, hq, h a hq]
        omega
      | false =>
        cases hp : p a <;> simp [List.filter_cons, hq, hp] <;> omega

lemma unreg_le_of_subset {N : Nat} {f g : Finder} (h : f.ids ⊆ g.ids) :
    unreg N g ≤ unreg N f := by
  apply length_filter_le_of_imp
  intro a ha
  simp at ha ⊢
  exact fun hmem => ha (h hmem)

lemma unreg_lt_register {N : Nat} {f : Finder} {id : Nat}
    (hN : id < N) (hnew : id ∉ f.ids) :
    unreg N ⟨id :: f.ids⟩ < unreg N f := by
  apply length_filter_lt_of_imp
  · intro a ha
    simp at ha ⊢
    exact ha.2
  · simpa using hN
  · simpa using hnew
  · simp

lemma memOfGetElem {α : Type} {l : List α} {i : Nat} {a : α}
    (h : l[i]? = some a) : a ∈ l := by
  obtain ⟨hl, rfl⟩ := List.getElem?_eq_some_iff.mp h
  exact List.getElem_mem hl

lemma cellOK_of_mem {H : Heap} (hH : heapOK H = true) {id : Nat} {c : Cell}
    (hc : H.cells[id]? = some c) : cellOK H.cells.length c = true :=
  List.all_eq_true.mp hH c (memOfGetElem hc)

lemma ptrElem_OK {H : Heap} (hH : heapOK H = true) (id : Nat) :
    valOK H.cells.length (ptrElem H id) = true := by
  unfold ptrElem Heap.cellAt
  cases hc : H.cells[id]? with
  | none => simp [valOK]
  | some c =>
    have hcOK := cellOK_of_mem hH hc
    cases c with
    | ptrCell t =>
      cases t with
      | none => simp [valOK]
      | some v => simpa [cellOK] using hcOK
    | sliceCell es => simp [valOK]
    | mapCell kvs => simp [valOK]

lemma sliceElems_OK {H : Heap} (hH : heapOK H = true) (id : Nat) :
    valListOK H.cells.length (sliceElems H id) = true := by
  unfold sliceElems Heap.cellAt
  cases hc : H.cells[id]? with
  | none => simp [valListOK]
  | some c =>
    have hcOK := cellOK_of_mem hH hc
    cases c with
    | ptrCell t => simp [valListOK]
    | sliceCell es => simpa [cellOK] using hcOK
    | mapCell kvs => simp [valListOK]

lemma mapEntries_OK {H : Heap} (hH : heapOK H = true) (id : Nat) :
    mapCellOK H.cells.length (mapEntries H id) = true := by
  unfold mapEntries Heap.cellAt
  cases hc : H.cells[id]? with
  | none => simp [mapCellOK]
  | some c =>
    have hcOK := cellOK_of_mem hH hc
    cases c with
    | ptrCell t => simp [mapCellOK]
    | sliceCell es => simp [mapCellOK]
    | mapCell kvs => simpa [cellOK] using hcOK

lemma drillDown_mono {H : Heap} :
    ∀ {fuel : Nat} {f : Finder} {v : Val} {r : Val × Bool × Finder},
    drillDown H fuel f v = .ok r → drillDown H (fuel + 1) f v = .ok r := by
  intro fuel
  induction fuel with
  | zero => intro f v r h; simp [drillDown] at h
  | succ fuel ih =>
    intro f v r h
    cases v
    case ptrV id =>
      simp only [drillDown] at h ⊢
      split at h
      · rename_i hc
        rw [if_pos hc]
        exact h
      · rename_i hc
        rw [if_neg hc]
        exact ih h
    case ifaceV inner =>
      simp only [drillDown] at h ⊢
      exact ih h
    all_goals simpa only [drillDown] using h

lemma drillDown_mono_le {H : Heap} {fuel fuel' : Nat} {f : Finder} {v : Val}
    {r : Val × Bool × Finder} (hle : fuel ≤ fuel')
    (h : drillDown H fuel f v = .ok r) : drillDown H fuel' f v = .ok r := by
  induction fuel' with
  | zero =>
    have : fuel = 0 := by omega
    subst this
    exact h
  | succ fuel' ih =>
    rcases Nat.lt_or_ge fuel (fuel' + 1) with hlt | hge
    · exact drillDown_mono (ih (by omega))
    · have : fuel = fuel' + 1 := by omega
      subst this
      exact h

lemma drillDown_ex {H : Heap} (hH : heapOK H = true) :
    ∀ (f : Finder) (v : Val), valOK H.cells.length v = true →
    ∃ fuel r, drillDown H fuel f v = .ok r := by
  suffices hkey : ∀ u sz (f : Finder) (v : Val), unreg H.cells.length f = u →
      valSize v = sz → valOK H.cells.length v = true →
      ∃ fuel r, drillDown H fuel f v = .ok r by
    intro f v hv
    exact hkey _ _ f v rfl rfl hv
  intro u
  induction u using Nat.strong_induction_on with
  | _ u IHu =>
    intro sz
    induction sz using Nat.strong_induction_on with
    | _ sz IHsz =>
      intro f v hu hsz hv
      cases v
      case ptrV id =>
        by_cases hdup : (f.registerPointer id).1 = true
        · exact ⟨1, (Val.ptrV id, true, (f.registerPointer id).2),
            by simp only [drillDown, if_pos hdup]⟩
        · have hid : id < H.cells.length := by simpa [valOK] using hv
          have hnew : id ∉ f.ids := by
            intro hmem
            simp [Finder.registerPointer, hmem] at hdup
          have hreg2 : (f.registerPointer id).2 = ⟨id :: f.ids⟩ := by
            simp [Finder.registerPointer, hnew]
          have hlt : unreg H.cells.length ⟨id :: f.ids⟩ < u :=
            hu ▸ unreg_lt_register hid hnew
          obtain ⟨fuel, r, hr⟩ := IHu _ hlt (valSize (ptrElem H id)) ⟨id :: f.ids⟩
            (ptrElem H id) rfl rfl (ptrElem_OK hH id)
          refine ⟨fuel + 1, r, ?_⟩
          simp only [drillDown, if_neg hdup, hreg2]
          exact hr
      case ifaceV inner =>
        have hsz2 : valSize inner < sz := by
          simp [valSize] at hsz
          omega
        obtain ⟨fuel, r, hr⟩ := IHsz _ hsz2 f inner hu rfl
          (by simpa [valOK] using hv)
        refine ⟨fuel + 1, r, ?_⟩
        simp only [drillDown]
        exact hr
      all_goals exact ⟨1, _, rfl⟩

lemma drillDown_spec {H : Heap} (hH : heapOK H = true) :
    ∀ {fuel : Nat} {f : Finder} {v v2 : Val} {dup : Bool} {f2 : Finder},
    valOK H.cells.length v = true →
    drillDown H fuel f v = .ok (v2, dup, f2) →
    f.ids ⊆ f2.ids ∧
    (dup = false →
      valOK H.cells.length v2 = true ∧
      (∀ id, v2 ≠ .ptrV id) ∧ (∀ w, v2 ≠ .ifaceV w) ∧
      ((f2 = f ∧ valSize v2 ≤ valSize v) ∨
        unreg H.cells.length f2 < unreg H.cells.length f)) := by
  intro fuel
  induction fuel with
  | zero => intro f v v2 dup f2 hv h; simp [drillDown] at h
  | succ fuel ih =>
    intro f v v2 dup f2 hv h
    cases v
    case ptrV id =>
      simp only [drillDown] at h
      split at h
      · rename_i hdup
        simp only [Except.ok.injEq, Prod.mk.injEq] at h
        obtain ⟨h1, h2, h3⟩ := h
        refine ⟨?_, ?_⟩
        · rw [← h3]
          simp [Finder.registerPointer]
          split <;> simp
        · intro hfalse
          rw [← h2] at hfalse
          simp at hfalse
      · rename_i hdup
        have hid : id < H.cells.length := by simpa [valOK] using hv
        have hnew : id ∉ f.ids := by
          intro hmem
          simp [Finder.registerPointer, hmem] at hdup
        have hreg2 : (f.registerPointer id).2 = ⟨id :: f.ids⟩ := by
          simp [Finder.registerPointer, hnew]
        rw [hreg2] at h
        obtain ⟨hsub, hrest⟩ := ih (ptrElem_OK hH id) h
        refine ⟨fun x hx => hsub (List.mem_cons_of_mem _ hx), ?_⟩
        intro hdup0
        obtain ⟨hOK2, hnp, hni, _⟩ := hrest hdup0
        refine ⟨hOK2, hnp, hni, Or.inr ?_⟩
        have hstep : unreg H.cells.length ⟨id :: f.ids⟩ <
            unreg H.cells.length f := unreg_lt_register hid hnew
        have hle : unreg H.cells.length f2 ≤
            unreg H.cells.length ⟨id :: f.ids⟩ := by
          rcases hrest hdup0 with ⟨_, _, _, hC | hC⟩
          · rw [hC.1]
          · omega
        omega
    case ifaceV inner =>
      simp only [drillDown] at h
      obtain ⟨hsub, hrest⟩ := ih (by simpa [valOK] using hv) h
      refine ⟨hsub, ?_⟩
      intro hdup0
      obtain ⟨hOK2, hnp, hni, hC⟩ := hrest hdup0
      refine ⟨hOK2, hnp, hni, ?_⟩
      rcases hC with ⟨hf, hsz⟩ | hC
      · exact Or.inl ⟨hf, by simp [valSize]; omega⟩
      · exact Or.inr hC
    all_goals
      simp only [drillDown, Except.ok.injEq, Prod.mk.injEq] at h
      obtain ⟨h1, h2, h3⟩ := h
      subst h1
      subst h3
      refine ⟨fun x hx => hx, ?_⟩
      intro hdup0
      refine ⟨hv, ?_, ?_, Or.inl ⟨rfl, le_refl _⟩⟩
      · intro id hco
        cases hco
      · intro w hco
        cases hco

lemma drillDown_det {H : Heap} :
    ∀ {fuel fuel' : Nat} {f f' : Finder} {v v2 v2' : Val} {f2 f2' : Finder},
    drillDown H fuel f v = .ok (v2, false, f2) →
    drillDown H fuel' f' v = .ok (v2', false, f2') → v2 = v2' := by
  intro fuel
  induction fuel with
  | zero => intro fuel' f f' v v2 v2' f2 f2' h1 h2; simp [drillDown] at h1
  | succ fuel ih =>
    intro fuel' f f' v v2 v2' f2 f2' h1 h2
    cases fuel' with
    | zero => simp [drillDown] at h2
    | succ fuel' =>
      cases v
      case ptrV id =>
        simp only [drillDown] at h1 h2
        split at h1
        · simp at h1
        · split at h2
          · simp at h2
          · exact ih h1 h2
      case ifaceV inner =>
        simp only [drillDown] at h1 h2
        exact ih h1 h2
      all_goals
        simp only [drillDown, Except.ok.injEq, Prod.mk.injEq] at h1 h2
        rw [← h1.1, ← h2.1]

/-- Fuel monotonicity for the whole engine: a completed run is stable under
extra fuel. -/
lemma engine_mono (H : Heap) : ∀ fuel : Nat,
    (∀ a b s r, areObjectsEquivalent H fuel a b s = .ok r →
      areObjectsEquivalent H (fuel + 1) a b s = .ok r) ∧
    (∀ a b s r, areArraysOrSlicesEquivalent H fuel a b s = .ok r →
      areArraysOrSlicesEquivalent H (fuel + 1) a b s = .ok r) ∧
    (∀ i rem a b s r, arrLoop H fuel i rem a b s = .ok r →
      arrLoop H (fuel + 1) i rem a b s = .ok r) ∧
    (∀ a b s r, areMapsEquivalent H fuel a b s = .ok r →
      areMapsEquivalent H (fuel + 1) a b s = .ok r) ∧
    (∀ entries b s r, mapLoop H fuel entries b s = .ok r →
      mapLoop H (fuel + 1) entries b s = .ok r) ∧
    (∀ a b s r, areStructsEquivalent H fuel a b s = .ok r →
      areStructsEquivalent H (fuel + 1) a b s = .ok r) ∧
    (∀ pairs s r, structLoop H fuel pairs s = .ok r →
      structLoop H (fuel + 1) pairs s = .ok r) := by
  intro fuel
  induction fuel with
  | zero =>
    refine ⟨?_, ?_, ?_, ?_, ?_, ?_, ?_⟩ <;> intros <;>
      simp [areObjectsEquivalent, areArraysOrSlicesEquivalent, arrLoop,
        areMapsEquivalent, mapLoop, areStructsEquivalent, structLoop] at *
  | succ fuel ih =>
    refine ⟨?_, ?_, ?_, ?_, ?_, ?_, ?_⟩
    · -- areObjectsEquivalent
      intro a b s r h
      simp only [areObjectsEquivalent] at h ⊢
      cases hda : drillDown H fuel s.aF a with
      | error e => simp [hda] at h
      | ok ra =>
        obtain ⟨a1, aDup, aF1⟩ := ra
        cases hdb : drillDown H fuel s.bF b with
        | error e => simp [hda, hdb] at h
        | ok rb =>
          obtain ⟨b1, bDup, bF1⟩ := rb
          simp only [hda, hdb] at h
          simp only [drillDown_mono hda, drillDown_mono hdb]
          by_cases hdup : (aDup || bDup) = true
          · rw [if_pos hdup] at h ⊢
            exact h
          · rw [if_neg hdup] at h ⊢
            cases a1 <;> cases b1 <;> (try simp only [] at h ⊢) <;>
              first
                | exact h
                | exact ih.2.1 _ _ _ _ h
                | exact ih.2.2.2.1 _ _ _ _ h
                | exact ih.2.2.2.2.2.1 _ _ _ _ h
                | (split at h <;>
                    first
                      | (rename_i hc; rw [if_pos hc]; exact h)
                      | (rename_i hc; rw [if_neg hc]; exact ih.2.1 _ _ _ _ h)
                      | (rename_i hc; rw [if_neg hc]; exact ih.2.2.2.1 _ _ _ _ h))
    · -- areArraysOrSlicesEquivalent
      intro a b s r h
      simp only [areArraysOrSlicesEquivalent] at h ⊢
      cases hla : lenE H a with
      | error e => simp [hla] at h
      | ok la =>
        simp only [hla] at h ⊢
        cases hlb : lenE H b with
        | error e => simp [hlb] at h
        | ok lb =>
          simp only [hlb] at h ⊢
          by_cases hc : (la != lb) = true
          · rw [if_pos hc] at h ⊢
            exact h
          · rw [if_neg hc] at h ⊢
            exact ih.2.2.1 _ _ _ _ _ _ h
    · -- arrLoop
      intro i rem a b s r h
      simp only [arrLoop] at h ⊢
      cases rem with
      | zero => exact h
      | succ rem =>
        cases hia : indexE H a i with
        | error e => simp [hia] at h
        | ok av =>
          simp only [hia] at h ⊢
          cases hib : indexE H b i with
          | error e => simp [hib] at h
          | ok bv =>
            simp only [hib] at h ⊢
            cases heng : areObjectsEquivalent H fuel av bv s with
            | error e => simp [heng] at h
            | ok rr =>
              obtain ⟨res, s2⟩ := rr
              simp only [heng] at h
              simp only [ih.1 _ _ _ _ heng]
              cases res
              · exact h
              · exact ih.2.2.1 _ _ _ _ _ _ h
    · -- areMapsEquivalent
      intro a b s r h
      simp only [areMapsEquivalent] at h ⊢
      cases hla : lenE H a with
      | error e => simp [hla] at h
      | ok la =>
        simp only [hla] at h ⊢
        cases hlb : lenE H b with
        | error e => simp [hlb] at h
        | ok lb =>
          simp only [hlb] at h ⊢
          by_cases hc : (la != lb) = true
          · rw [if_pos hc] at h ⊢
            exact h
          · rw [if_neg hc] at h ⊢
            cases a <;> (try simp only [] at h ⊢) <;>
              first
                | exact h
                | exact ih.2.2.2.2.1 _ _ _ _ h
    · -- mapLoop
      intro entries b s r h
      simp only [mapLoop] at h
      cases entries with
      | nil => exact h
      | cons kv rest =>
        obtain ⟨k, av⟩ := kv
        cases hbe : entriesE H b with
        | error e => simp [hbe] at h
        | ok bE =>
          simp only [hbe] at h
          cases heng : areObjectsEquivalent H fuel av
              (match getMapValue bE k with | some v => v | none => .invalid) s with
          | error e => simp [heng] at h
          | ok rr =>
            obtain ⟨res, s2⟩ := rr
            simp only [heng] at h
            rw [mapLoop]
            simp only [hbe, ih.1 _ _ _ _ heng]
            cases res
            · exact h
            · exact ih.2.2.2.2.1 _ _ _ _ h
    · -- areStructsEquivalent
      intro a b s r h
      simp only [areStructsEquivalent] at h ⊢
      cases a with
      | structV ty fs =>
        simp only [] at h ⊢
        cases hfb : fieldsE b with
        | error e => simp [hfb] at h
        | ok bfs =>
          simp only [hfb] at h ⊢
          by_cases hc : (fs.length != bfs.length) = true
          · rw [if_pos hc] at h ⊢
            exact h
          · rw [if_neg hc] at h ⊢
            exact ih.2.2.2.2.2.2 _ _ _ h
      | bigIntV av => exact h
      | bigFloatV p av => exact h
      | invalid => exact h
      | boolV v => exact h
      | intV k v => exact h
      | uintV k v => exact h
      | floatV k v => exact h
      | complexV k re im => exact h
      | strV ty sv => exact h
      | arrayV es => exact h
      | sliceV id => exact h
      | mapV id => exact h
      | uintptrV v => exact h
      | uaddrV aAdd v => exact h
      | chanV t e d => exact h
      | funcV t => exact h
      | ptrV id => exact h
      | ifaceV v => exact h
    · -- structLoop
      intro pairs s r h
      simp only [structLoop] at h ⊢
      cases pairs with
      | nil => exact h
      | cons xy rest =>
        obtain ⟨x, y⟩ := xy
        cases heng : areObjectsEquivalent H fuel x y s with
        | error e => simp [heng] at h
        | ok rr =>
          obtain ⟨res, s2⟩ := rr
          simp only [heng] at h
          simp only [ih.1 _ _ _ _ heng]
          cases res
          · exact h
          · exact ih.2.2.2.2.2.2 _ _ _ h

/-- Registering an identity only ever adds to a finder. -/
lemma registerPointer_growth (f : Finder) (id : Nat) :
    f.ids ⊆ (f.registerPointer id).2.ids := by
  unfold Finder.registerPointer
  split
  · exact fun x hx => hx
  · exact fun x hx => List.mem_cons_of_mem _ hx

/-- Drilling down only ever adds to the finder. -/
lemma drillDown_growth {H : Heap} :
    ∀ {fuel : Nat} {f : Finder} {v v2 : Val} {dup : Bool} {f2 : Finder},
    drillDown H fuel f v = .ok (v2, dup, f2) → f.ids ⊆ f2.ids := by
  intro fuel
  induction fuel with
  | zero => intro f v v2 dup f2 h; simp [drillDown] at h
  | succ fuel ih =>
    intro f v v2 dup f2 h
    simp only [drillDown] at h
    split at h
    · split at h
      · simp only [Except.ok.injEq, Prod.mk.injEq] at h
        obtain ⟨h1, h2, h3⟩ := h
        subst h3
        exact registerPointer_growth _ _
      · exact (registerPointer_growth _ _).trans (ih h)
    · exact ih h
    · simp only [Except.ok.injEq, Prod.mk.injEq] at h
      obtain ⟨h1, h2, h3⟩ := h
      subst h3
      exact fun x hx => hx

/-- A completed engine run only ever adds to both finders. -/
lemma engine_growth (H : Heap) : ∀ fuel : Nat,
    (∀ a b s r s2, areObjectsEquivalent H fuel a b s = .ok (r, s2) →
      s.aF.ids ⊆ s2.aF.ids ∧ s.bF.ids ⊆ s2.bF.ids) ∧
    (∀ a b s r s2, areArraysOrSlicesEquivalent H fuel a b s = .ok (r, s2) →
      s.aF.ids ⊆ s2.aF.ids ∧ s.bF.ids ⊆ s2.bF.ids) ∧
    (∀ i rem a b s r s2, arrLoop H fuel i rem a b s = .ok (r, s2) →
      s.aF.ids ⊆ s2.aF.ids ∧ s.bF.ids ⊆ s2.bF.ids) ∧
    (∀ a b s r s2, areMapsEquivalent H fuel a b s = .ok (r, s2) →
      s.aF.ids ⊆ s2.aF.ids ∧ s.bF.ids ⊆ s2.bF.ids) ∧
    (∀ entries b s r s2, mapLoop H fuel entries b s = .ok (r, s2) →
      s.aF.ids ⊆ s2.aF.ids ∧ s.bF.ids ⊆ s2.bF.ids) ∧
    (∀ a b s r s2, areStructsEquivalent H fuel a b s = .ok (r, s2) →
      s.aF.ids ⊆ s2.aF.ids ∧ s.bF.ids ⊆ s2.bF.ids) ∧
    (∀ pairs s r s2, structLoop H fuel pairs s = .ok (r, s2) →
      s.aF.ids ⊆ s2.aF.ids ∧ s.bF.ids ⊆ s2.bF.ids) := by
  intro fuel
  induction fuel with
  | zero =>
    refine ⟨?_, ?_, ?_, ?_, ?_, ?_, ?_⟩ <;> intros <;>
      simp [areObjectsEquivalent, areArraysOrSlicesEquivalent, arrLoop,
        areMapsEquivalent, mapLoop, areStructsEquivalent, structLoop] at *
  | succ fuel ih =>
    refine ⟨?_, ?_, ?_, ?_, ?_, ?_, ?_⟩
    · -- areObjectsEquivalent
      intro a b s r s2 h
      simp only [areObjectsEquivalent] at h
      cases hda : drillDown H fuel s.aF a with
      | error e => simp [hda] at h
      | ok ra =>
        obtain ⟨a1, aDup, aF1⟩ := ra
        cases hdb : drillDown H fuel s.bF b with
        | error e => simp [hda, hdb] at h
        | ok rb =>
          obtain ⟨b1, bDup, bF1⟩ := rb
          have hga : s.aF.ids ⊆ aF1.ids := drillDown_growth hda
          have hgb : s.bF.ids ⊆ bF1.ids := drillDown_growth hdb
          simp only [hda, hdb] at h
          by_cases hdup : (aDup || bDup) = true
          · rw [if_pos hdup] at h
            simp only [Except.ok.injEq, Prod.mk.injEq] at h
            obtain ⟨h1, h2⟩ := h
            subst h2
            exact ⟨hga, hgb⟩
          · rw [if_neg hdup] at h
            cases a1 <;> cases b1 <;> (try simp only [] at h) <;>
              first
                | (simp only [Except.ok.injEq, Prod.mk.injEq] at h; obtain ⟨h1, h2⟩ := h; subst h2; exact ⟨hga, hgb⟩)
                | exact ⟨hga.trans (ih.2.1 _ _ _ _ _ h).1, hgb.trans (ih.2.1 _ _ _ _ _ h).2⟩
                | exact ⟨hga.trans (ih.2.2.2.1 _ _ _ _ _ h).1, hgb.trans (ih.2.2.2.1 _ _ _ _ _ h).2⟩
                | exact ⟨hga.trans (ih.2.2.2.2.2.1 _ _ _ _ _ h).1, hgb.trans (ih.2.2.2.2.2.1 _ _ _ _ _ h).2⟩
                | (split at h <;>
                    first
                      | (simp only [Except.ok.injEq, Prod.mk.injEq] at h; obtain ⟨h1, h2⟩ := h; subst h2; exact ⟨hga.trans (registerPointer_growth _ _), hgb⟩)
                      | exact ⟨(hga.trans (registerPointer_growth _ _)).trans (ih.2.1 _ _ _ _ _ h).1, hgb.trans (ih.2.1 _ _ _ _ _ h).2⟩
                      | exact ⟨(hga.trans (registerPointer_growth _ _)).trans (ih.2.2.2.1 _ _ _ _ _ h).1, hgb.trans (ih.2.2.2.1 _ _ _ _ _ h).2⟩)
                | (split at h <;>
                    first
                      | (simp only [Except.ok.injEq, Prod.mk.injEq] at h; obtain ⟨h1, h2⟩ := h; subst h2; exact ⟨hga, hgb⟩)
                      | simp at h)
                | simp at h
    · -- areArraysOrSlicesEquivalent
      intro a b s r s2 h
      simp only [areArraysOrSlicesEquivalent] at h
      cases hla : lenE H a with
      | error e => simp [hla] at h
      | ok la =>
        simp only [hla] at h
        cases hlb : lenE H b with
        | error e => simp [hlb] at h
        | ok lb =>
          simp only [hlb] at h
          by_cases hc : (la != lb) = true
          · rw [if_pos hc] at h
            simp only [Except.ok.injEq, Prod.mk.injEq] at h
            obtain ⟨h1, h2⟩ := h
            subst h2
            exact ⟨fun x hx => hx, fun x hx => hx⟩
          · rw [if_neg hc] at h
            exact ih.2.2.1 _ _ _ _ _ _ _ h
    · -- arrLoop
      intro i rem a b s r s2 h
      simp only [arrLoop] at h
      cases rem with
      | zero =>
        simp only [Except.ok.injEq, Prod.mk.injEq] at h
        obtain ⟨h1, h2⟩ := h
        subst h2
        exact ⟨fun x hx => hx, fun x hx => hx⟩
      | succ rem =>
        cases hia : indexE H a i with
        | error e => simp [hia] at h
        | ok av =>
          simp only [hia] at h
          cases hib : indexE H b i with
          | error e => simp [hib] at h
          | ok bv =>
            simp only [hib] at h
            cases heng : areObjectsEquivalent H fuel av bv s with
            | error e => simp [heng] at h
            | ok rr =>
              obtain ⟨res, s3⟩ := rr
              simp only [heng] at h
              have hg1 := ih.1 _ _ _ _ _ heng
              cases res
              · simp only [Except.ok.injEq, Prod.mk.injEq] at h
                obtain ⟨h1, h2⟩ := h
                subst h2
                exact hg1
              · exact ⟨hg1.1.trans (ih.2.2.1 _ _ _ _ _ _ _ h).1,
                  hg1.2.trans (ih.2.2.1 _ _ _ _ _ _ _ h).2⟩
    · -- areMapsEquivalent
      intro a b s r s2 h
      simp only [areMapsEquivalent] at h
      cases hla : lenE H a with
      | error e => simp [hla] at h
      | ok la =>
        simp only [hla] at h
        cases hlb : lenE H b with
        | error e => simp [hlb] at h
        | ok lb =>
          simp only [hlb] at h
          by_cases hc : (la != lb) = true
          · rw [if_pos hc] at h
            simp only [Except.ok.injEq, Prod.mk.injEq] at h
            obtain ⟨h1, h2⟩ := h
            subst h2
            exact ⟨fun x hx => hx, fun x hx => hx⟩
          · rw [if_neg hc] at h
            cases a <;> (try simp only [] at h) <;>
              first
                | exact ih.2.2.2.2.1 _ _ _ _ _ h
                | simp at h
    · -- mapLoop
      intro entries b s r s2 h
      simp only [mapLoop] at h
      cases entries with
      | nil =>
        simp only [Except.ok.injEq, Prod.mk.injEq] at h
        obtain ⟨h1, h2⟩ := h
        subst h2
        exact ⟨fun x hx => hx, fun x hx => hx⟩
      | cons kv rest =>
        obtain ⟨k, av⟩ := kv
        cases hbe : entriesE H b with
        | error e => simp [hbe] at h
        | ok bE =>
          simp only [hbe] at h
          cases heng : areObjectsEquivalent H fuel av
              (match getMapValue bE k with | some v => v | none => .invalid) s with
          | error e => simp [heng] at h
          | ok rr =>
            obtain ⟨res, s3⟩ := rr
            simp only [heng] at h
            have hg1 := ih.1 _ _ _ _ _ heng
            cases res
            · simp only [Except.ok.injEq, Prod.mk.injEq] at h
              obtain ⟨h1, h2⟩ := h
              subst h2
              exact hg1
            · exact ⟨hg1.1.trans (ih.2.2.2.2.1 _ _ _ _ _ h).1,
                hg1.2.trans (ih.2.2.2.2.1 _ _ _ _ _ h).2⟩
    · -- areStructsEquivalent
      intro a b s r s2 h
      simp only [areStructsEquivalent] at h
      split at h
      · simp only [Except.ok.injEq, Prod.mk.injEq] at h
        obtain ⟨h1, h2⟩ := h
        subst h2
        exact ⟨fun x hx => hx, fun x hx => hx⟩
      · simp only [Except.ok.injEq, Prod.mk.injEq] at h
        obtain ⟨h1, h2⟩ := h
        subst h2
        exact ⟨fun x hx => hx, fun x hx => hx⟩
      · cases hfb : fieldsE b with
        | error e => simp [hfb] at h
        | ok bfs =>
          simp only [hfb] at h
          split at h
          · simp only [Except.ok.injEq, Prod.mk.injEq] at h
            obtain ⟨h1, h2⟩ := h
            subst h2
            exact ⟨fun x hx => hx, fun x hx => hx⟩
          · exact ih.2.2.2.2.2.2 _ _ _ _ h
      · simp at h
    · -- structLoop
      intro pairs s r s2 h
      simp only [structLoop] at h
      cases pairs with
      | nil =>
        simp only [Except.ok.injEq, Prod.mk.injEq] at h
        obtain ⟨h1, h2⟩ := h
        subst h2
        exact ⟨fun x hx => hx, fun x hx => hx⟩
      | cons xy rest =>
        obtain ⟨x, y⟩ := xy
        cases heng : areObjectsEquivalent H fuel x y s with
        | error e => simp [heng] at h
        | ok rr =>
          obtain ⟨res, s3⟩ := rr
          simp only [heng] at h
          have hg1 := ih.1 _ _ _ _ _ heng
          cases res
          · simp only [Except.ok.injEq, Prod.mk.injEq] at h
            obtain ⟨h1, h2⟩ := h
            subst h2
            exact hg1
          · exact ⟨hg1.1.trans (ih.2.2.2.2.2.2 _ _ _ _ h).1,
              hg1.2.trans (ih.2.2.2.2.2.2 _ _ _ _ h).2⟩


/-- `≤`-form of fuel monotonicity for the dispatcher. -/
lemma areObjectsEquivalent_mono_le {H : Heap} {fuel fuel' : Nat} {a b : Val}
    {s : CompState} {r : Bool × CompState} (hle : fuel ≤ fuel')
    (h : areObjectsEquivalent H fuel a b s = .ok r) :
    areObjectsEquivalent H fuel' a b s = .ok r := by
  induction fuel' with
  | zero =>
    have h0 : fuel = 0 := by omega
    subst h0
    exact h
  | succ n ihn =>
    rcases Nat.lt_or_ge fuel (n + 1) with hlt | hge
    · exact (engine_mono H n).1 _ _ _ _ (ihn (by omega))
    · have he : fuel = n + 1 := by omega
      subst he
      exact h

/-- `≤`-form of fuel monotonicity for the sequence rule. -/
lemma areArraysOrSlicesEquivalent_mono_le {H : Heap} {fuel fuel' : Nat}
    {a b : Val} {s : CompState} {r : Bool × CompState} (hle : fuel ≤ fuel')
    (h : areArraysOrSlicesEquivalent H fuel a b s = .ok r) :
    areArraysOrSlicesEquivalent H fuel' a b s = .ok r := by
  induction fuel' with
  | zero =>
    have h0 : fuel = 0 := by omega
    subst h0
    exact h
  | succ n ihn =>
    rcases Nat.lt_or_ge fuel (n + 1) with hlt | hge
    · exact (engine_mono H n).2.1 _ _ _ _ (ihn (by omega))
    · have he : fuel = n + 1 := by omega
      subst he
      exact h

/-- `≤`-form of fuel monotonicity for the element loop. -/
lemma arrLoop_mono_le {H : Heap} {fuel fuel' : Nat} {i rem : Nat} {a b : Val}
    {s : CompState} {r : Bool × CompState} (hle : fuel ≤ fuel')
    (h : arrLoop H fuel i rem a b s = .ok r) :
    arrLoop H fuel' i rem a b s = .ok r := by
  induction fuel' with
  | zero =>
    have h0 : fuel = 0 := by omega
    subst h0
    exact h
  | succ n ihn =>
    rcases Nat.lt_or_ge fuel (n + 1) with hlt | hge
    · exact (engine_mono H n).2.2.1 _ _ _ _ _ _ (ihn (by omega))
    · have he : fuel = n + 1 := by omega
      subst he
      exact h

/-- `≤`-form of fuel monotonicity for the map rule. -/
lemma areMapsEquivalent_mono_le {H : Heap} {fuel fuel' : Nat} {a b : Val}
    {s : CompState} {r : Bool × CompState} (hle : fuel ≤ fuel')
    (h : areMapsEquivalent H fuel a b s = .ok r) :
    areMapsEquivalent H fuel' a b s = .ok r := by
  induction fuel' with
  | zero =>
    have h0 : fuel = 0 := by omega
    subst h0
    exact h
  | succ n ihn =>
    rcases Nat.lt_or_ge fuel (n + 1) with hlt | hge
    · exact (engine_mono H n).2.2.2.1 _ _ _ _ (ihn (by omega))
    · have he : fuel = n + 1 := by omega
      subst he
      exact h

/-- `≤`-form of fuel monotonicity for the entry loop. -/
lemma mapLoop_mono_le {H : Heap} {fuel fuel' : Nat}
    {entries : List (Val × Val)} {b : Val} {s : CompState}
    {r : Bool × CompState} (hle : fuel ≤ fuel')
    (h : mapLoop H fuel entries b s = .ok r) :
    mapLoop H fuel' entries b s = .ok r := by
  induction fuel' with
  | zero =>
    have h0 : fuel = 0 := by omega
    subst h0
    exact h
  | succ n ihn =>
    rcases Nat.lt_or_ge fuel (n + 1) with hlt | hge
    · exact (engine_mono H n).2.2.2.2.1 _ _ _ _ (ihn (by omega))
    · have he : fuel = n + 1 := by omega
      subst he
      exact h

/-- `≤`-form of fuel monotonicity for the struct rule. -/
lemma areStructsEquivalent_mono_le {H : Heap} {fuel fuel' : Nat} {a b : Val}
    {s : CompState} {r : Bool × CompState} (hle : fuel ≤ fuel')
    (h : areStructsEquivalent H fuel a b s = .ok r) :
    areStructsEquivalent H fuel' a b s = .ok r := by
  induction fuel' with
  | zero =>
    have h0 : fuel = 0 := by omega
    subst h0
    exact h
  | succ n ihn =>
    rcases Nat.lt_or_ge fuel (n + 1) with hlt | hge
    · exact (engine_mono H n).2.2.2.2.2.1 _ _ _ _ (ihn (by omega))
    · have he : fuel = n + 1 := by omega
      subst he
      exact h

/-- `≤`-form of fuel monotonicity for the field loop. -/
lemma structLoop_mono_le {H : Heap} {fuel fuel' : Nat}
    {pairs : List (Val × Val)} {s : CompState} {r : Bool × CompState}
    (hle : fuel ≤ fuel') (h : structLoop H fuel pairs s = .ok r) :
    structLoop H fuel' pairs s = .ok r := by
  induction fuel' with
  | zero =>
    have h0 : fuel = 0 := by omega
    subst h0
    exact h
  | succ n ihn =>
    rcases Nat.lt_or_ge fuel (n + 1) with hlt | hge
    · exact (engine_mono H n).2.2.2.2.2.2 _ _ _ (ihn (by omega))
    · have he : fuel = n + 1 := by omega
      subst he
      exact h

/-- A non-NaN float is Go-equal to itself. -/
lemma goFloatEq_refl {g : GoFloat} (h : g.nan = false) :
    goFloatEq g g = true := by
  simp [goFloatEq, h]

/-- Member of a well-formed value list is well formed. -/
lemma valListOK_mem {N : Nat} : ∀ {es : List Val} {x : Val},
    valListOK N es = true → x ∈ es → valOK N x = true := by
  intro es
  induction es with
  | nil => intro x h hm; simp at hm
  | cons a l ih =>
    intro x h hm
    simp only [valListOK, Bool.and_eq_true] at h
    rcases List.mem_cons.mp hm with rfl | hm2
    · exact h.1
    · exact ih h.2 hm2

/-- Member of a value list is smaller than the containing container. -/
lemma valSize_lt_of_mem : ∀ {es : List Val} {x : Val},
    x ∈ es → valSize x < valListSize es + 1 := by
  intro es
  induction es with
  | nil => intro x hm; simp at hm
  | cons a l ih =>
    intro x hm
    rcases List.mem_cons.mp hm with rfl | hm2
    · simp [valListSize]
      omega
    · have := ih hm2
      simp [valListSize]
      omega

/-- Entry-wise consequences of map-table well-formedness. -/
lemma mapCellOK_entry {N : Nat} : ∀ {kvs : List (Val × Val)} {k v : Val},
    mapCellOK N kvs = true → (k, v) ∈ kvs →
    goEq k k = true ∧ keyShapeOK k = true ∧ valOK N v = true := by
  intro kvs
  induction kvs with
  | nil => intro k v h hm; simp at hm
  | cons kv rest ih =>
    intro k v h hm
    obtain ⟨k0, v0⟩ := kv
    simp only [mapCellOK, Bool.and_eq_true] at h
    rcases List.mem_cons.mp hm with heq | hm2
    · have hk : k = k0 := congrArg Prod.fst heq
      have hv : v = v0 := congrArg Prod.snd heq
      subst hk
      subst hv
      exact ⟨h.1.1.1.1, h.1.1.1.2, h.1.1.2⟩
    · exact ih h.2 hm2

/-- A well-formed entry table finds each of its own keys exactly. -/
lemma mapIndex_self {N : Nat} : ∀ {kvs : List (Val × Val)} {k v : Val},
    mapCellOK N kvs = true → (k, v) ∈ kvs → mapIndex kvs k = some v := by
  intro kvs
  induction kvs with
  | nil => intro k v h hm; simp at hm
  | cons kv rest ih =>
    intro k v h hm
    obtain ⟨k0, v0⟩ := kv
    simp only [mapCellOK, Bool.and_eq_true] at h
    obtain ⟨⟨⟨⟨hself, hshape⟩, hvok⟩, hdist⟩, hrest⟩ := h
    rcases List.mem_cons.mp hm with heq | hm2
    · have hk : k = k0 := congrArg Prod.fst heq
      have hv : v = v0 := congrArg Prod.snd heq
      subst hk
      subst hv
      unfold mapIndex
      rw [List.find?_cons_of_pos _ (by simpa using hself)]
      rfl
    · have hne := List.all_eq_true.mp hdist (k, v) hm2
      simp only [Bool.and_eq_true, Bool.not_eq_true'] at hne
      unfold mapIndex
      rw [List.find?_cons_of_neg _ (by simpa using hne.2)]
      exact ih hrest hm2

/-- `getMapValue` run on a stored key of a well-formed table returns the
stored value via the initial exact probe. -/
lemma getMapValue_self {N : Nat} {m : List (Val × Val)} {k v : Val}
    (hm : mapCellOK N m = true) (hshape : keyShapeOK k = true)
    (hmem : (k, v) ∈ m) : getMapValue m k = some v := by
  have hidx : mapIndex m k = some v := mapIndex_self hm hmem
  cases k <;> simp_all [keyShapeOK, getMapValue]


/-- Reflexive run of the element loop: indexing is supplied abstractly, each
element compares true to itself from any state reachable from the loop
entry. -/
lemma arrLoop_refl {H : Heap} {c : Val} {xs : List Val}
    (hidx : ∀ j w, xs[j]? = some w → indexE H c j = .ok w) :
    ∀ (k : Nat) (s : CompState), k ≤ xs.length →
    (∀ (s' : CompState) (w : Val), w ∈ xs → s.aF.ids ⊆ s'.aF.ids →
      ∃ fuel t, areObjectsEquivalent H fuel w w s' = .ok (true, t)) →
    ∃ fuel s2, arrLoop H fuel (xs.length - k) k c c s = .ok (true, s2) := by
  intro k
  induction k with
  | zero =>
    intro s hk hsolve
    exact ⟨1, s, rfl⟩
  | succ k ih =>
    intro s hk hsolve
    have hi : xs.length - (k + 1) < xs.length := by omega
    obtain ⟨w, hw⟩ : ∃ w, xs[xs.length - (k + 1)]? = some w :=
      ⟨_, List.getElem?_eq_getElem hi⟩
    have hmemw : w ∈ xs := memOfGetElem hw
    obtain ⟨f1, t, heng⟩ := hsolve s w hmemw (fun x hx => hx)
    have hsub : s.aF.ids ⊆ t.aF.ids := ((engine_growth H f1).1 _ _ _ _ _ heng).1
    obtain ⟨f2, s2, hloop⟩ := ih t (by omega)
      (fun s' w' hm hsub' => hsolve s' w' hm (hsub.trans hsub'))
    refine ⟨max f1 f2 + 1, s2, ?_⟩
    have heng' := areObjectsEquivalent_mono_le (Nat.le_max_left f1 f2) heng
    have hloop' := arrLoop_mono_le (Nat.le_max_right f1 f2) hloop
    have hidx' := hidx _ _ hw
    have harith : xs.length - (k + 1) + 1 = xs.length - k := by omega
    simp only [arrLoop, hidx', heng']
    rw [harith]
    exact hloop'

/-- Reflexive run of the entry loop: every processed entry looks itself up
and its value compares true to itself. -/
lemma mapLoop_refl {H : Heap} {id : Nat} :
    ∀ (rest : List (Val × Val)) (s : CompState),
    (∀ kv, kv ∈ rest → getMapValue (mapEntries H id) kv.1 = some kv.2) →
    (∀ (s' : CompState) (kv : Val × Val), kv ∈ rest → s.aF.ids ⊆ s'.aF.ids →
      ∃ fuel t, areObjectsEquivalent H fuel kv.2 kv.2 s' = .ok (true, t)) →
    ∃ fuel s2, mapLoop H fuel rest (.mapV id) s = .ok (true, s2) := by
  intro rest
  induction rest with
  | nil =>
    intro s hget hsolve
    exact ⟨1, s, rfl⟩
  | cons kv rest ih =>
    intro s hget hsolve
    obtain ⟨k, v⟩ := kv
    obtain ⟨f1, t, heng⟩ := hsolve s (k, v) (List.mem_cons_self _ _) (fun x hx => hx)
    have heng1 : areObjectsEquivalent H f1 v v s = .ok (true, t) := heng
    have hsub : s.aF.ids ⊆ t.aF.ids := ((engine_growth H f1).1 _ _ _ _ _ heng1).1
    obtain ⟨f2, s2, hloop⟩ := ih t (fun kv hm => hget kv (List.mem_cons_of_mem _ hm))
      (fun s' kv hm hsub' => hsolve s' kv (List.mem_cons_of_mem _ hm) (hsub.trans hsub'))
    refine ⟨max f1 f2 + 1, s2, ?_⟩
    have heng' := areObjectsEquivalent_mono_le (Nat.le_max_left f1 f2) heng1
    have hloop' := mapLoop_mono_le (Nat.le_max_right f1 f2) hloop
    have hget1 : getMapValue (mapEntries H id) k = some v :=
      hget (k, v) (List.mem_cons_self _ _)
    simp only [mapLoop, entriesE, hget1, heng']
    exact hloop'

/-- Reflexive run of the field loop over a self-zipped field list. -/
lemma structLoop_refl {H : Heap} :
    ∀ (xs : List Val) (s : CompState),
    (∀ (s' : CompState) (w : Val), w ∈ xs → s.aF.ids ⊆ s'.aF.ids →
      ∃ fuel t, areObjectsEquivalent H fuel w w s' = .ok (true, t)) →
    ∃ fuel s2, structLoop H fuel (xs.zip xs) s = .ok (true, s2) := by
  intro xs
  induction xs with
  | nil =>
    intro s hsolve
    exact ⟨1, s, rfl⟩
  | cons x rest ih =>
    intro s hsolve
    obtain ⟨f1, t, heng⟩ := hsolve s x (List.mem_cons_self _ _) (fun y hy => hy)
    have hsub : s.aF.ids ⊆ t.aF.ids := ((engine_growth H f1).1 _ _ _ _ _ heng).1
    obtain ⟨f2, s2, hloop⟩ := ih t
      (fun s' w hm hsub' => hsolve s' w (List.mem_cons_of_mem _ hm) (hsub.trans hsub'))
    refine ⟨max f1 f2 + 1, s2, ?_⟩
    have heng' := areObjectsEquivalent_mono_le (Nat.le_max_left f1 f2) heng
    have hloop' := structLoop_mono_le (Nat.le_max_right f1 f2) hloop
    simp only [structLoop, List.zip_cons_cons, heng']
    exact hloop'


/-- Core reflexivity: over a well-formed heap, a well-formed value compares
equivalent to itself from any comparator state, given enough fuel.  The
termination measure is the pair (unregistered identities of the left
finder, structural size). -/
lemma engine_refl {H : Heap} (hH : heapOK H = true) :
    ∀ (s : CompState) (v : Val), valOK H.cells.length v = true →
    ∃ fuel s2, areObjectsEquivalent H fuel v v s = .ok (true, s2) := by
  suffices hkey : ∀ u sz (s : CompState) (v : Val),
      unreg H.cells.length s.aF ≤ u → valSize v ≤ sz →
      valOK H.cells.length v = true →
      ∃ fuel s2, areObjectsEquivalent H fuel v v s = .ok (true, s2) by
    intro s v hv
    exact hkey _ _ s v le_rfl le_rfl hv
  intro u
  induction u using Nat.strong_induction_on with
  | _ u IHu =>
    intro sz
    induction sz using Nat.strong_induction_on with
    | _ sz IHsz =>
      intro s v hu hsz hv
      have REC : ∀ (s' : CompState) (w : Val),
          valOK H.cells.length w = true →
          (unreg H.cells.length s'.aF < u ∨
            (unreg H.cells.length s'.aF ≤ u ∧ valSize w < sz)) →
          ∃ fuel t, areObjectsEquivalent H fuel w w s' = .ok (true, t) := by
        intro s' w hw hcond
        rcases hcond with hlt | ⟨hle, hslt⟩
        · exact IHu _ hlt (valSize w) s' w le_rfl le_rfl hw
        · exact IHsz _ hslt s' w hle le_rfl hw
      obtain ⟨fa, ⟨v2a, dupa, aF1⟩, hda⟩ := drillDown_ex hH s.aF v hv
      obtain ⟨fb, ⟨v2b, dupb, bF1⟩, hdb⟩ := drillDown_ex hH s.bF v hv
      by_cases hdup : (dupa || dupb) = true
      · refine ⟨max fa fb + 1, ⟨aF1, bF1⟩, ?_⟩
        have hda' := drillDown_mono_le (Nat.le_max_left fa fb) hda
        have hdb' := drillDown_mono_le (Nat.le_max_right fa fb) hdb
        simp [areObjectsEquivalent, hda', hdb', hdup]
      · simp only [Bool.or_eq_true] at hdup
        push_neg at hdup
        obtain ⟨hdupa, hdupb⟩ := hdup
        have hdupa2 : dupa = false := Bool.eq_false_iff.mpr hdupa
        have hdupb2 : dupb = false := Bool.eq_false_iff.mpr hdupb
        subst hdupa2
        subst hdupb2
        have hv2 : v2a = v2b := drillDown_det hda hdb
        subst hv2
        obtain ⟨hsubA, hgoodA⟩ := drillDown_spec hH hv hda
        obtain ⟨hOK2, hnp, hni, hdich⟩ := hgoodA rfl
        have huA : unreg H.cells.length aF1 ≤ u :=
          le_trans (unreg_le_of_subset hsubA) hu
        have hda1 := drillDown_mono_le (Nat.le_max_left fa fb) hda
        have hdb1 := drillDown_mono_le (Nat.le_max_right fa fb) hdb
        cases v2a with
        | ptrV id => exact absurd rfl (hnp id)
        | ifaceV w => exact absurd rfl (hni w)
        | invalid =>
          exact ⟨max fa fb + 1, ⟨aF1, bF1⟩,
            by simp [areObjectsEquivalent, hda1, hdb1]⟩
        | boolV bv =>
          exact ⟨max fa fb + 1, ⟨aF1, bF1⟩,
            by simp [areObjectsEquivalent, hda1, hdb1]⟩
        | intV k n =>
          exact ⟨max fa fb + 1, ⟨aF1, bF1⟩,
            by simp [areObjectsEquivalent, hda1, hdb1, isEquivalentToInt]⟩
        | uintV k n =>
          exact ⟨max fa fb + 1, ⟨aF1, bF1⟩,
            by simp [areObjectsEquivalent, hda1, hdb1, isEquivalentToUint]⟩
        | floatV k g =>
          refine ⟨max fa fb + 1, ⟨aF1, bF1⟩, ?_⟩
          cases hn : g.nan <;>
            simp [areObjectsEquivalent, hda1, hdb1, isEquivalentToFloat,
              goFloatEq, hn]
        | complexV k re im =>
          have hcc : re.nan = false ∧ im.nan = false := by
            simpa [valOK, Bool.and_eq_true] using hOK2
          exact ⟨max fa fb + 1, ⟨aF1, bF1⟩,
            by simp [areObjectsEquivalent, hda1, hdb1, goFloatEq, hcc.1, hcc.2]⟩
        | strV t sv =>
          exact ⟨max fa fb + 1, ⟨aF1, bF1⟩,
            by simp [areObjectsEquivalent, hda1, hdb1]⟩
        | uintptrV n =>
          simp [valOK] at hOK2
        | uaddrV aAdd n =>
          have hflag : aAdd = true := by simpa [valOK] using hOK2
          subst hflag
          exact ⟨max fa fb + 1, ⟨aF1, bF1⟩,
            by simp [areObjectsEquivalent, hda1, hdb1]⟩
        | chanV t e d =>
          exact ⟨max fa fb + 1, ⟨aF1, bF1⟩,
            by simp [areObjectsEquivalent, hda1, hdb1]⟩
        | funcV t =>
          exact ⟨max fa fb + 1, ⟨aF1, bF1⟩,
            by simp [areObjectsEquivalent, hda1, hdb1]⟩
        | bigIntV n =>
          have hrun : areStructsEquivalent H 1 (.bigIntV n) (.bigIntV n)
              ⟨aF1, bF1⟩ = .ok (true, ⟨aF1, bF1⟩) := by
            simp [areStructsEquivalent, isEquivalentToBigInt, numericToString]
          refine ⟨max (max fa fb) 1 + 1, ⟨aF1, bF1⟩, ?_⟩
          have hda2 := drillDown_mono_le
            (le_trans (Nat.le_max_left fa fb) (Nat.le_max_left (max fa fb) 1)) hda
          have hdb2 := drillDown_mono_le
            (le_trans (Nat.le_max_right fa fb) (Nat.le_max_left (max fa fb) 1)) hdb
          have hrun2 := areStructsEquivalent_mono_le
            (Nat.le_max_right (max fa fb) 1) hrun
          simp [areObjectsEquivalent, hda2, hdb2, hrun2]
        | bigFloatV p q =>
          have hrun : areStructsEquivalent H 1 (.bigFloatV p q) (.bigFloatV p q)
              ⟨aF1, bF1⟩ = .ok (true, ⟨aF1, bF1⟩) := by
            simp [areStructsEquivalent, isEquivalentToBigFloat, numericToString]
          refine ⟨max (max fa fb) 1 + 1, ⟨aF1, bF1⟩, ?_⟩
          have hda2 := drillDown_mono_le
            (le_trans (Nat.le_max_left fa fb) (Nat.le_max_left (max fa fb) 1)) hda
          have hdb2 := drillDown_mono_le
            (le_trans (Nat.le_max_right fa fb) (Nat.le_max_left (max fa fb) 1)) hdb
          have hrun2 := areStructsEquivalent_mono_le
            (Nat.le_max_right (max fa fb) 1) hrun
          simp [areObjectsEquivalent, hda2, hdb2, hrun2]
        | arrayV es =>
          have hesOK : valListOK H.cells.length es = true := by
            simpa [valOK] using hOK2
          have hidxA : ∀ j w, es[j]? = some w →
              indexE H (.arrayV es) j = .ok w := by
            intro j w hjw
            simp [indexE, hjw]
          have hsolveA : ∀ (s' : CompState) (w : Val), w ∈ es →
              (⟨aF1, bF1⟩ : CompState).aF.ids ⊆ s'.aF.ids →
              ∃ fuel t, areObjectsEquivalent H fuel w w s' = .ok (true, t) := by
            intro s' w hm hsub'
            have hwOK := valListOK_mem hesOK hm
            rcases hdich with ⟨hfa, hszle⟩ | hlt
            · refine REC s' w hwOK (Or.inr ⟨?_, ?_⟩)
              · have g1 : unreg H.cells.length s'.aF ≤
                    unreg H.cells.length aF1 := unreg_le_of_subset hsub'
                rw [hfa] at g1
                exact le_trans g1 hu
              · have h1 : valSize w < valListSize es + 1 := valSize_lt_of_mem hm
                have h2 : valListSize es + 1 ≤ valSize v := by
                  simpa [valSize] using hszle
                omega
            · refine REC s' w hwOK (Or.inl ?_)
              have g1 : unreg H.cells.length s'.aF ≤
                  unreg H.cells.length aF1 := unreg_le_of_subset hsub'
              exact lt_of_le_of_lt g1 (lt_of_lt_of_le hlt hu)
          obtain ⟨fl, s2, hloop⟩ :=
            arrLoop_refl hidxA es.length ⟨aF1, bF1⟩ le_rfl hsolveA
          rw [Nat.sub_self] at hloop
          have hrun : areArraysOrSlicesEquivalent H (fl + 1) (.arrayV es)
              (.arrayV es) ⟨aF1, bF1⟩ = .ok (true, s2) := by
            simp [areArraysOrSlicesEquivalent, lenE, hloop]
          refine ⟨max (max fa fb) (fl + 1) + 1, s2, ?_⟩
          have hda2 := drillDown_mono_le (le_trans (Nat.le_max_left fa fb)
            (Nat.le_max_left (max fa fb) (fl + 1))) hda
          have hdb2 := drillDown_mono_le (le_trans (Nat.le_max_right fa fb)
            (Nat.le_max_left (max fa fb) (fl + 1))) hdb
          have hrun2 := areArraysOrSlicesEquivalent_mono_le
            (Nat.le_max_right (max fa fb) (fl + 1)) hrun
          simp [areObjectsEquivalent, hda2, hdb2, hrun2]
        | structV ty fs =>
          have hfsOK : valListOK H.cells.length fs = true := by
            simpa [valOK] using hOK2
          have hsolveS : ∀ (s' : CompState) (w : Val), w ∈ fs →
              (⟨aF1, bF1⟩ : CompState).aF.ids ⊆ s'.aF.ids →
              ∃ fuel t, areObjectsEquivalent H fuel w w s' = .ok (true, t) := by
            intro s' w hm hsub'
            have hwOK := valListOK_mem hfsOK hm
            rcases hdich with ⟨hfa, hszle⟩ | hlt
            · refine REC s' w hwOK (Or.inr ⟨?_, ?_⟩)
              · have g1 : unreg H.cells.length s'.aF ≤
                    unreg H.cells.length aF1 := unreg_le_of_subset hsub'
                rw [hfa] at g1
                exact le_trans g1 hu
              · have h1 : valSize w < valListSize fs + 1 := valSize_lt_of_mem hm
                have h2 : valListSize fs + 1 ≤ valSize v := by
                  simpa [valSize] using hszle
                omega
            · refine REC s' w hwOK (Or.inl ?_)
              have g1 : unreg H.cells.length s'.aF ≤
                  unreg H.cells.length aF1 := unreg_le_of_subset hsub'
              exact lt_of_le_of_lt g1 (lt_of_lt_of_le hlt hu)
          obtain ⟨fl, s2, hloop⟩ := structLoop_refl fs ⟨aF1, bF1⟩ hsolveS
          have hrun : areStructsEquivalent H (fl + 1) (.structV ty fs)
              (.structV ty fs) ⟨aF1, bF1⟩ = .ok (true, s2) := by
            simp [areStructsEquivalent, fieldsE, hloop]
          refine ⟨max (max fa fb) (fl + 1) + 1, s2, ?_⟩
          have hda2 := drillDown_mono_le (le_trans (Nat.le_max_left fa fb)
            (Nat.le_max_left (max fa fb) (fl + 1))) hda
          have hdb2 := drillDown_mono_le (le_trans (Nat.le_max_right fa fb)
            (Nat.le_max_left (max fa fb) (fl + 1))) hdb
          have hrun2 := areStructsEquivalent_mono_le
            (Nat.le_max_right (max fa fb) (fl + 1)) hrun
          simp [areObjectsEquivalent, hda2, hdb2, hrun2]
        | sliceV id =>
          cases hr : (aF1.registerPointer id).1 with
          | true =>
            refine ⟨max fa fb + 1, ⟨(aF1.registerPointer id).2, bF1⟩, ?_⟩
            simp [areObjectsEquivalent, hda1, hdb1, hr]
          | false =>
            have hid : id < H.cells.length := by simpa [valOK] using hOK2
            have hnew : id ∉ aF1.ids := by
              intro hmem
              simp [Finder.registerPointer, hmem] at hr
            have hreg2 : (aF1.registerPointer id).2 = ⟨id :: aF1.ids⟩ := by
              simp [Finder.registerPointer, hnew]
            have hdropped : unreg H.cells.length (aF1.registerPointer id).2 < u := by
              rw [hreg2]
              exact lt_of_lt_of_le (unreg_lt_register hid hnew) huA
            have hidxS : ∀ j w, (sliceElems H id)[j]? = some w →
                indexE H (.sliceV id) j = .ok w := by
              intro j w hjw
              simp [indexE, hjw]
            have hsolveS : ∀ (s' : CompState) (w : Val), w ∈ sliceElems H id →
                (⟨(aF1.registerPointer id).2, bF1⟩ : CompState).aF.ids ⊆ s'.aF.ids →
                ∃ fuel t, areObjectsEquivalent H fuel w w s' = .ok (true, t) := by
              intro s' w hm hsub'
              have hwOK := valListOK_mem (sliceElems_OK hH id) hm
              refine REC s' w hwOK (Or.inl ?_)
              have g1 : unreg H.cells.length s'.aF ≤
                  unreg H.cells.length (aF1.registerPointer id).2 :=
                unreg_le_of_subset hsub'
              exact lt_of_le_of_lt g1 hdropped
            obtain ⟨fl, s2, hloop⟩ := arrLoop_refl hidxS (sliceElems H id).length
              ⟨(aF1.registerPointer id).2, bF1⟩ le_rfl hsolveS
            rw [Nat.sub_self] at hloop
            have hrun : areArraysOrSlicesEquivalent H (fl + 1) (.sliceV id)
                (.sliceV id) ⟨(aF1.registerPointer id).2, bF1⟩ = .ok (true, s2) := by
              simp [areArraysOrSlicesEquivalent, lenE, hloop]
            refine ⟨max (max fa fb) (fl + 1) + 1, s2, ?_⟩
            have hda2 := drillDown_mono_le (le_trans (Nat.le_max_left fa fb)
              (Nat.le_max_left (max fa fb) (fl + 1))) hda
            have hdb2 := drillDown_mono_le (le_trans (Nat.le_max_right fa fb)
              (Nat.le_max_left (max fa fb) (fl + 1))) hdb
            have hrun2 := areArraysOrSlicesEquivalent_mono_le
              (Nat.le_max_right (max fa fb) (fl + 1)) hrun
            simp [areObjectsEquivalent, hda2, hdb2, hr, hrun2]
        | mapV id =>
          cases hr : (aF1.registerPointer id).1 with
          | true =>
            refine ⟨max fa fb + 1, ⟨(aF1.registerPointer id).2, bF1⟩, ?_⟩
            simp [areObjectsEquivalent, hda1, hdb1, hr]
          | false =>
            have hid : id < H.cells.length := by simpa [valOK] using hOK2
            have hnew : id ∉ aF1.ids := by
              intro hmem
              simp [Finder.registerPointer, hmem] at hr
            have hreg2 : (aF1.registerPointer id).2 = ⟨id :: aF1.ids⟩ := by
              simp [Finder.registerPointer, hnew]
            have hdropped : unreg H.cells.length (aF1.registerPointer id).2 < u := by
              rw [hreg2]
              exact lt_of_lt_of_le (unreg_lt_register hid hnew) huA
            have hget : ∀ kv, kv ∈ mapEntries H id →
                getMapValue (mapEntries H id) kv.1 = some kv.2 := by
              intro kv hm
              obtain ⟨k, w⟩ := kv
              have hentry := mapCellOK_entry (mapEntries_OK hH id) hm
              exact getMapValue_self (mapEntries_OK hH id) hentry.2.1 hm
            have hsolveM : ∀ (s' : CompState) (kv : Val × Val),
                kv ∈ mapEntries H id →
                (⟨(aF1.registerPointer id).2, bF1⟩ : CompState).aF.ids ⊆ s'.aF.ids →
                ∃ fuel t, areObjectsEquivalent H fuel kv.2 kv.2 s' = .ok (true, t) := by
              intro s' kv hm hsub'
              obtain ⟨k, w⟩ := kv
              have hentry := mapCellOK_entry (mapEntries_OK hH id) hm
              refine REC s' w hentry.2.2 (Or.inl ?_)
              have g1 : unreg H.cells.length s'.aF ≤
                  unreg H.cells.length (aF1.registerPointer id).2 :=
                unreg_le_of_subset hsub'
              exact lt_of_le_of_lt g1 hdropped
            obtain ⟨fl, s2, hloop⟩ := mapLoop_refl (mapEntries H id)
              ⟨(aF1.registerPointer id).2, bF1⟩ hget hsolveM
            have hrun : areMapsEquivalent H (fl + 1) (.mapV id) (.mapV id)
                ⟨(aF1.registerPointer id).2, bF1⟩ = .ok (true, s2) := by
              simp [areMapsEquivalent, lenE, hloop]
            refine ⟨max (max fa fb) (fl + 1) + 1, s2, ?_⟩
            have hda2 := drillDown_mono_le (le_trans (Nat.le_max_left fa fb)
              (Nat.le_max_left (max fa fb) (fl + 1))) hda
            have hdb2 := drillDown_mono_le (le_trans (Nat.le_max_right fa fb)
              (Nat.le_max_left (max fa fb) (fl + 1))) hdb
            have hrun2 := areMapsEquivalent_mono_le
              (Nat.le_max_right (max fa fb) (fl + 1)) hrun
            simp [areObjectsEquivalent, hda2, hdb2, hr, hrun2]


/-- C2 (amended): reflexivity holds on every well-formed input: over a
well-formed heap (reference ids in range, map tables with Go-findable,
pairwise-distinct keys) and for every value containing no NaN complex
component, no `uintptr` and no non-addressable `unsafe.Pointer` in
dispatcher-reachable position, `IsEquivalent(v, v)` returns `true` —
including self-referential graphs, by the duplicate guard.  The excluded
cases fail and are exactly `c2_counterexample_reflexivity_failures`. -/
theorem c2_amended_reflexivity (H : Heap) (v : Val)
    (hH : heapOK H = true) (hv : valOK H.cells.length v = true) :
    ∃ fuel, IsEquivalent H fuel v v = some true := by
  obtain ⟨fuel, s2, hrun⟩ := engine_refl hH initState v hv
  refine ⟨fuel, ?_⟩
  cases v <;> simp [IsEquivalent, hrun]

/-- The amended C2 at a concrete cyclic input: a slice whose single element
is the slice itself compares equivalent to itself. -/
theorem c2_amended_reflexivity_witness :
    heapOK ⟨[Cell.sliceCell [Val.sliceV 0]]⟩ = true ∧
    valOK 1 (Val.sliceV 0) = true ∧
    ∃ fuel, IsEquivalent ⟨[Cell.sliceCell [Val.sliceV 0]]⟩ fuel
      (Val.sliceV 0) (Val.sliceV 0) = some true :=
  ⟨by decide, by decide,
    c2_amended_reflexivity ⟨[Cell.sliceCell [Val.sliceV 0]]⟩ (Val.sliceV 0)
      (by decide) (by decide)⟩


end GoEquivalence
